import Mathlib

/-!
Verification development for the DocSense RAG engine.

The definitions below are a shallow embedding, in Lean 4, of the Python
source under `backend/`:
chunking (`core/chunk/chunker.py`, `core/chunk/metadata_builder.py`),
hybrid retrieval (`core/retrieve/hybrid_search.py`), reranking
(`core/retrieve/reranker.py`), context assembly
(`core/retrieve/context_builder.py`), query analysis
(`core/retrieve/query_analyser.py`), and the two orchestration pipelines
(`core/pipeline/retrieval.py`, `core/pipeline/ingestion.py`).

External collaborators (embedding model, vector store, BM25 store, file
store, cross-encoder, LLM, tokenizer, SHA-256) are modelled as function
parameters; machine floats are modelled as rationals; Python dicts that
the code builds by insertion are modelled as association lists with
insertion-order semantics; `sorted(..., reverse=True)` is modelled by a
stable descending insertion sort.
-/

namespace DocSense

/-! ### Python list/dict primitives -/

/-- Stable insertion of `x` into a list sorted descending by `key`:
`x` is placed after every element whose key is strictly greater, and
before equal-keyed elements (it is the element occurring earlier in the
original list). -/
def insertDescBy {α : Type} (key : α → ℚ) (x : α) : List α → List α
  | [] => [x]
  | y :: ys => if key x < key y then y :: insertDescBy key x ys else x :: y :: ys

/-- Stable descending sort by `key`; models Python
`sorted(l, key=key, reverse=True)` (Timsort is stable, so any stable
descending sort computes the same list). -/
def sortDescBy {α : Type} (key : α → ℚ) : List α → List α
  | [] => []
  | x :: xs => insertDescBy key x (sortDescBy key xs)

/-! ### Python `dict` as an insertion-ordered association list -/

/-- `m[k] += v` on a `defaultdict(float)`: update the binding in place if
the key is present, else append a fresh binding `(k, v)` at the end
(Python dicts preserve insertion order). -/
def dadd : List (String × ℚ) → String → ℚ → List (String × ℚ)
  | [], k, v => [(k, v)]
  | (k', v') :: rest, k, v =>
    if k' = k then (k', v' + v) :: rest else (k', v') :: dadd rest k v

/-- `m[k] = v` on a dict: overwrite in place, else append. -/
def dset {β : Type} : List (String × β) → String → β → List (String × β)
  | [], k, v => [(k, v)]
  | (k', v') :: rest, k, v =>
    if k' = k then (k, v) :: rest else (k', v') :: dset rest k v

/-- `m.get(k)` / `k in m` on a dict (keys are unique in every dict the
code builds, so the first binding is the binding). -/
def dlookup {β : Type} (m : List (String × β)) (k : String) : Option β :=
  (m.find? (fun p => p.1 == k)).map (fun p => p.2)

/-! ### Data model: query-path records
(`models/query.py`, payload dicts of `storage/qdrant_store.py`) -/

/-- The payload dict attached to a vector-store hit.  `doc_id`,
`parent_id` and `text` are read with `.get`, hence `Option`. -/
structure Payload where
  doc_id : Option String
  parent_id : Option String
  text : Option String
deriving DecidableEq, Repr

/-- A dense-arm hit or `get_by_ids` item: `{"chunk_id": ..., "payload": ...}`. -/
structure Hit where
  chunk_id : String
  payload : Payload
deriving DecidableEq, Repr

/-- A candidate dict flowing from `HybridSearcher.search` to the
reranker and context builder.  Each field models one dict key;
`Option` fields model keys that may be absent (`payload` is the key the
reranker reads, which `HybridSearcher` never writes; `rerank_score` is
written by the reranker). -/
structure Cand where
  chunk_id : String
  rrf_score : ℚ
  metadata : Payload
  text : String
  payload : Option Payload := none
  rerank_score : Option ℚ := none
deriving DecidableEq, Repr

/-- `ParentChunk` (`models/chunk.py`) restricted to the fields the query
path reads. -/
structure ParentChunkQ where
  parent_id : String
  text : String
deriving DecidableEq, Repr

/-- `QueryFilters` (`models/query.py`): all fields optional. -/
structure QueryFilters where
  page_range : Option (List Int) := none
  section_title : Option String := none
  block_type : Option String := none
deriving DecidableEq, Repr

/-- The dense-arm filter dict: the `QueryFilters` dump plus, when the
scope is non-empty, a `doc_id` entry. -/
structure DenseFilters where
  filters : QueryFilters
  doc_id : Option (List String)
deriving DecidableEq, Repr

/-- `settings.retrieval` (`config/settings.py: RetrievalConfig`). -/
structure RetrievalConfig where
  dense_top_k : Nat := 20
  sparse_top_k : Nat := 20
  rrf_k : Nat := 60
  rerank_top_k : Nat := 20
  final_top_k : Nat := 5
deriving Repr

/-! ### `core/retrieve/hybrid_search.py` — `HybridSearcher.search`

The two arms are inputs: `dense` is the vector store's result list and
`sparse` the merged/truncated BM25 hit list.  The steps below mirror the
numbered steps 3-6 of `search`. -/

/-- One arm's RRF contributions: `(chunk_id, 1/(rrf_k + rank))` with the
rank enumerated from `r` (the code enumerates from 1). -/
def rrfContribs (rrfK : Nat) : Nat → List String → List (String × ℚ)
  | _, [] => []
  | r, cid :: rest => (cid, 1 / ((rrfK : ℚ) + (r : ℚ))) :: rrfContribs rrfK (r + 1) rest

/-- Step 3: `fused_scores` after folding the dense arm then the sparse
arm into a `defaultdict(float)`. -/
def fusedScores (rrfK : Nat) (dense : List Hit) (sparse : List (String × ℚ)) :
    List (String × ℚ) :=
  let afterDense :=
    (rrfContribs rrfK 1 (dense.map (fun h => h.chunk_id))).foldl
      (fun m p => dadd m p.1 p.2) []
  (rrfContribs rrfK 1 (sparse.map Prod.fst)).foldl
    (fun m p => dadd m p.1 p.2) afterDense

/-- The `payloads` dict populated while walking the dense arm. -/
def payloads0 (dense : List Hit) : List (String × Payload) :=
  dense.foldl (fun m h => dset m h.chunk_id h.payload) []

/-- Step 4 (first half): `sorted(fused_scores.items(), key=..., reverse=True)`. -/
def fusedSorted (rrfK : Nat) (dense : List Hit) (sparse : List (String × ℚ)) :
    List (String × ℚ) :=
  sortDescBy (fun p => p.2) (fusedScores rrfK dense sparse)

/-- Step 4 (second half): `top_candidates = fused_sorted[:rerank_top_k]`. -/
def topCandidates (cfg : RetrievalConfig) (dense : List Hit)
    (sparse : List (String × ℚ)) : List (String × ℚ) :=
  (fusedSorted cfg.rrf_k dense sparse).take cfg.rerank_top_k

/-- Step 5: the ids whose payload is missing (sparse-only hits among the
top candidates); this is the single batched `get_by_ids` request. -/
def sparseOnlyIds (cfg : RetrievalConfig) (dense : List Hit)
    (sparse : List (String × ℚ)) : List String :=
  ((topCandidates cfg dense sparse).filter
    (fun p => (dlookup (payloads0 dense) p.1).isNone)).map (fun p => p.1)

/-- Step 5: the `payloads` dict after merging the batched fetch. -/
def payloadsResolved (getByIds : List String → List Hit) (cfg : RetrievalConfig)
    (dense : List Hit) (sparse : List (String × ℚ)) : List (String × Payload) :=
  let so := sparseOnlyIds cfg dense sparse
  let fetched := if so.isEmpty then [] else getByIds so
  fetched.foldl (fun m h => dset m h.chunk_id h.payload) (payloads0 dense)

/-- `FileStore.load_parent_chunks(doc_id, parent_ids)` modelled from the
store contract (`storage/base.py`): a map holding each requested parent
present in the store. -/
def loadParentChunks (store : String → String → Option ParentChunkQ)
    (docId : String) (parentIds : List String) : List (String × ParentChunkQ) :=
  parentIds.filterMap (fun pid => (store docId pid).map (fun pc => (pid, pc)))

/-- Step 6 (grouping): `docs_to_resolve`, doc id → required parent ids. -/
def docsToResolve (cfg : RetrievalConfig) (getByIds : List String → List Hit)
    (dense : List Hit) (sparse : List (String × ℚ)) : List (String × List String) :=
  (topCandidates cfg dense sparse).foldl
    (fun d p =>
      match dlookup (payloadsResolved getByIds cfg dense sparse) p.1 with
      | none => d
      | some pl =>
        match pl.doc_id, pl.parent_id with
        | some did, some pid =>
          match dlookup d did with
          | some pids => dset d did (if pid ∈ pids then pids else pids ++ [pid])
          | none => dset d did [pid]
        | _, _ => d)
    []

/-- Step 6 (batch load): the `parent_cache` when a file store is wired in. -/
def parentCache (fileStore : Option (String → String → Option ParentChunkQ))
    (cfg : RetrievalConfig) (getByIds : List String → List Hit)
    (dense : List Hit) (sparse : List (String × ℚ)) :
    List (String × List (String × ParentChunkQ)) :=
  match fileStore with
  | none => []
  | some store =>
    (docsToResolve cfg getByIds dense sparse).map
      (fun p => (p.1, loadParentChunks store p.1 p.2))

/-- Step 6 (text lookup): the `text` attached to one candidate, resolved
from the parent cache when a file store is wired in. -/
def resolveText (fileStore : Option (String → String → Option ParentChunkQ))
    (cache : List (String × List (String × ParentChunkQ))) (pl : Payload) : String :=
  match fileStore with
  | none => ""
  | some _ =>
    match pl.doc_id, pl.parent_id with
    | some did, some pid =>
      match dlookup ((dlookup cache did).getD []) pid with
      | some pc => pc.text
      | none => ""
    | _, _ => ""

/-- Step 6 (loop): walk the top candidates in order, emitting those whose
payload resolved. -/
def finalLoop (fileStore : Option (String → String → Option ParentChunkQ))
    (payloads : List (String × Payload))
    (cache : List (String × List (String × ParentChunkQ))) :
    List (String × ℚ) → List Cand
  | [] => []
  | p :: rest =>
    match dlookup payloads p.1 with
    | none => finalLoop fileStore payloads cache rest
    | some pl =>
      { chunk_id := p.1, rrf_score := p.2, metadata := pl,
        text := resolveText fileStore cache pl } ::
        finalLoop fileStore payloads cache rest

/-- Step 6 (assembly): `final_results` — candidates whose payload
resolved, carrying the payload as `metadata` and the parent text (when a
file store is wired in) as `text`. -/
def finalResults (fileStore : Option (String → String → Option ParentChunkQ))
    (getByIds : List String → List Hit) (cfg : RetrievalConfig)
    (dense : List Hit) (sparse : List (String × ℚ)) : List Cand :=
  finalLoop fileStore (payloadsResolved getByIds cfg dense sparse)
    (parentCache fileStore cfg getByIds dense sparse)
    (topCandidates cfg dense sparse)

/-- Step 2: the sparse arm — per-document BM25 hits concatenated in doc
order, stable-sorted descending by score, truncated to `sparse_top_k`. -/
def sparseHits (bm25Search : String → String → Nat → List (String × ℚ))
    (cfg : RetrievalConfig) (question : String) (docIds : List String) :
    List (String × ℚ) :=
  (sortDescBy (fun p => p.2)
    (docIds.flatMap (fun d => bm25Search d question cfg.sparse_top_k))).take
    cfg.sparse_top_k

/-- Retrieval statistics returned by `search`. -/
structure SearchStats where
  dense_hits : Nat
  sparse_hits : Nat
  fused_candidates : Nat
deriving DecidableEq, Repr

/-- Output of `HybridSearcher.search`. -/
structure SearchOutput where
  results : List Cand
  stats : SearchStats
deriving DecidableEq, Repr

/-- `HybridSearcher.search`: dense arm, sparse arm, RRF fusion, payload
resolution, text resolution, statistics. -/
def hybridSearch (embedQuery : String → List ℚ)
    (vectorSearch : List ℚ → Nat → DenseFilters → List Hit)
    (bm25Search : String → String → Nat → List (String × ℚ))
    (getByIds : List String → List Hit)
    (fileStore : Option (String → String → Option ParentChunkQ))
    (cfg : RetrievalConfig) (question : String) (docIds : List String)
    (filters : QueryFilters) : SearchOutput :=
  let queryVector := embedQuery question
  let denseFilters : DenseFilters :=
    { filters := filters
      doc_id := if docIds.isEmpty then none else some docIds }
  let dense := vectorSearch queryVector cfg.dense_top_k denseFilters
  let sparse := sparseHits bm25Search cfg question docIds
  { results := finalResults fileStore getByIds cfg dense sparse
    stats :=
      { dense_hits := dense.length
        sparse_hits := sparse.length
        fused_candidates := (fusedScores cfg.rrf_k dense sparse).length } }

/-! ### Lemmas about RRF fusion -/

/-- One arm's specified RRF term for an id: `1/(k + rank)` with the
1-indexed rank of the id in the arm, `0` if absent. -/
def rrfTerm (rrfK : Nat) (ids : List String) (id : String) : ℚ :=
  match ids.findIdx? (fun c => c == id) with
  | some i => 1 / ((rrfK : ℚ) + ((i : ℚ) + 1))
  | none => 0

/-- The specified fused score: for every arm in which the id appears,
add `1/(k + rank)` with 1-indexed ranks. -/
def specRRFScore (rrfK : Nat) (denseIds sparseIds : List String) (id : String) : ℚ :=
  rrfTerm rrfK denseIds id + rrfTerm rrfK sparseIds id

/-- Concrete payload used by the witness fixtures. -/
def wPayload : Payload := ⟨some "doc", some "p1", none⟩

/-- Concrete `get_by_ids` collaborator: resolves every requested id. -/
def wGetByIds : List String → List Hit := fun ids => ids.map (fun i => ⟨i, wPayload⟩)

/-- Concrete sparse-arm result list for the witnesses. -/
def wSparse : List (String × ℚ) := [("s1", 5)]

/-- Default retrieval configuration (the `config/settings.py` defaults). -/
def wCfg : RetrievalConfig := {}

/-! ### Data model: chunk metadata (`models/chunk.py: ChunkMetadata`) -/

structure ChunkMetadata where
  chunk_id : String
  parent_id : String
  prev_chunk_id : Option String
  next_chunk_id : Option String
  doc_id : String
  source_file : String
  page_number : Nat
  page_range : List Nat
  char_start : Nat
  char_end : Nat
  section_title : Option String := none
  subsection_title : Option String := none
  heading_level : Option Nat := none
  section_path : Option String := none
  block_type : String
  token_count : Nat
  chunk_index : Nat
  total_chunks : Nat
  is_near_heading : Bool
  chunk_level : String
  embedding_model : String
  created_at : String
deriving DecidableEq, Repr

/-! ### `core/retrieve/context_builder.py` — `ContextBuilder.build` -/

/-- A reranked-result dict as the context builder reads it:
`res["chunk_id"]`, `ChunkMetadata(**res["metadata"])`, and
`res.get("rerank_score", 0.0)` (hence `Option`). -/
structure RRes where
  chunk_id : String
  metadata : ChunkMetadata
  rerank_score : Option ℚ := none
deriving DecidableEq, Repr

/-- `RetrievedContext` (`models/query.py`). -/
structure RetrievedContext where
  child_chunk_id : String
  parent_text : String
  metadata : ChunkMetadata
  rerank_score : ℚ
deriving DecidableEq, Repr

/-- `docs_to_parents`: doc id → required parent ids.  The Python value is
a dict of sets used only as keyword-lookup input to the batched load, so
the set is modelled as an insertion-ordered duplicate-free list. -/
def dtpStep (d : List (String × List String)) (r : RRes) : List (String × List String) :=
  match dlookup d r.metadata.doc_id with
  | some pids =>
    dset d r.metadata.doc_id
      (if r.metadata.parent_id ∈ pids then pids else pids ++ [r.metadata.parent_id])
  | none => dset d r.metadata.doc_id [r.metadata.parent_id]

def docsToParents (rrs : List RRes) : List (String × List String) :=
  rrs.foldl dtpStep []

/-- The per-query `_parent_cache` after the batched loads. -/
def ctxParentCache (store : String → String → Option ParentChunkQ)
    (rrs : List RRes) : List (String × List (String × ParentChunkQ)) :=
  (docsToParents rrs).map (fun p => (p.1, loadParentChunks store p.1 p.2))

/-- The parent text the walk reads for a `(doc_id, parent_id)` pair:
empty when the cache resolves nothing. -/
def ctxCacheText (store : String → String → Option ParentChunkQ)
    (rrs : List RRes) (did pid : String) : String :=
  match dlookup ((dlookup (ctxParentCache store rrs) did).getD []) pid with
  | some pc => pc.text
  | none => ""

/-- The store-level parent text for a `(doc_id, parent_id)` pair. -/
def storeText (store : String → String → Option ParentChunkQ)
    (did pid : String) : String :=
  match store did pid with
  | some pc => pc.text
  | none => ""

/-- The emitted context entry for one candidate. -/
def mkContext (textOf : String → String → String) (r : RRes) : RetrievedContext :=
  { child_chunk_id := r.chunk_id
    parent_text := textOf r.metadata.doc_id r.metadata.parent_id
    metadata := r.metadata
    rerank_score := r.rerank_score.getD 0 }

/-- The dedup walk of `ContextBuilder.build`: skip parents already seen,
skip candidates whose parent text is empty, emit in rank order. -/
def ctxWalk (textOf : String → String → String) (seen : List String) :
    List RRes → List RetrievedContext
  | [] => []
  | r :: rest =>
    if r.metadata.parent_id ∈ seen then ctxWalk textOf seen rest
    else
      if textOf r.metadata.doc_id r.metadata.parent_id ≠ "" then
        mkContext textOf r :: ctxWalk textOf (seen ++ [r.metadata.parent_id]) rest
      else ctxWalk textOf seen rest

/-- `ContextBuilder.build`: batch-load the needed parents, then walk the
candidates deduplicating by `parent_id`. -/
def contextBuild (store : String → String → Option ParentChunkQ)
    (rrs : List RRes) : List RetrievedContext :=
  ctxWalk (ctxCacheText store rrs) [] rrs

/-- Concrete child metadata for the context-assembly witness. -/
def wMeta (cid pid : String) : ChunkMetadata :=
  { chunk_id := cid, parent_id := pid, prev_chunk_id := none, next_chunk_id := none,
    doc_id := "doc", source_file := "f.pdf", page_number := 1, page_range := [1, 1],
    char_start := 0, char_end := 5, block_type := "text", token_count := 2,
    chunk_index := 0, total_chunks := 2, is_near_heading := false,
    chunk_level := "child", embedding_model := "bge", created_at := "now" }

/-- Concrete parent store: only `("doc", "p1")` resolves. -/
def wStore : String → String → Option ParentChunkQ :=
  fun did pid => if did = "doc" ∧ pid = "p1" then some ⟨"p1", "parent text"⟩ else none

/-- Two reranked candidates sharing the parent `p1`. -/
def wRRs : List RRes := [⟨"c1", wMeta "c1" "p1", some 2⟩, ⟨"c2", wMeta "c2" "p1", some 1⟩]

/-! ### `core/retrieve/reranker.py` — `Reranker.rerank`

On a non-empty candidate list the code reads `c["payload"]` of every
candidate and scores `payload.get("text", "")`; a missing `payload` key
is a `KeyError`, modelled as `Except.error`.  The scoring collaborator
(`model.predict`) is the `scorer` parameter; `scores[i]` is modelled by
`List.get?`. -/
def rerank (scorer : List (String × String) → List ℚ) (finalTopK : Nat)
    (query : String) (candidates : List Cand) : Except String (List Cand) :=
  if candidates.isEmpty then Except.ok []
  else
    match candidates.mapM (fun c =>
      match c.payload with
      | some p => Except.ok (query, p.text.getD "")
      | none => Except.error "KeyError: payload") with
    | Except.error e => Except.error e
    | Except.ok pairs =>
      let scores := scorer pairs
      let withScores := candidates.enum.map
        (fun ic => { ic.2 with rerank_score := scores.get? ic.1 })
      Except.ok ((sortDescBy (fun c => c.rerank_score.getD 0) withScores).take finalTopK)

/-- A concrete scoring collaborator for the reranker theorem. -/
def wScorer : List (String × String) → List ℚ := fun pairs => pairs.map (fun _ => 0)

/-! ### `core/retrieve/query_analyser.py` — `QueryAnalyser.analyse`

The two compiled regexes (`page\s+(\d+)` and
`pages?\s+(\d+)\s*(?:to|-)\s*(\d+)`, IGNORECASE, `.search`) are embedded
as maximal-munch scanners over the lowercased question: for these
patterns greedy matching never backtracks (`\d+` is followed by tokens
that cannot start with a digit), so maximal munch is exact.
`\s` is modelled as `Char.isWhitespace`. -/

/-- Greedy digit run at the head, with its value (`int` of the capture). -/
def digitsVal (ds : List Char) : Nat :=
  ds.foldl (fun a c => a * 10 + (c.toNat - 48)) 0

/-- Does `pat` start `text`? -/
def startsWith : List Char → List Char → Bool
  | [], _ => true
  | _ :: _, [] => false
  | p :: ps, c :: cs => p == c && startsWith ps cs

/-- Python `sub in s` on char lists. -/
def hasSubstr : List Char → List Char → Bool
  | text, pat =>
    match text with
    | [] => pat.isEmpty
    | _ :: rest => startsWith pat text || hasSubstr rest pat

/-- ASCII lowercasing (`str.lower()` restricted to the ASCII letters the
analyser's patterns and keywords use). -/
def lowerChar (c : Char) : Char :=
  if 'A' ≤ c ∧ c ≤ 'Z' then Char.ofNat (c.toNat + 32) else c

/-- `question.lower()` as a char list. -/
def lowerStr (s : String) : List Char := s.data.map lowerChar

/-- `page\s+(\d+)` anchored at this position (input already lowercased). -/
def matchSingleAt : List Char → Option Nat
  | 'p' :: 'a' :: 'g' :: 'e' :: rest =>
    let ws := rest.takeWhile Char.isWhitespace
    let rest1 := rest.dropWhile Char.isWhitespace
    if ws.isEmpty then none
    else
      let ds := rest1.takeWhile Char.isDigit
      if ds.isEmpty then none else some (digitsVal ds)
  | _ => none

/-- `pages?\s+(\d+)\s*(?:to|-)\s*(\d+)` anchored at this position. -/
def matchRangeAt : List Char → Option (Nat × Nat)
  | 'p' :: 'a' :: 'g' :: 'e' :: rest0 =>
    let rest := if rest0.head? == some 's' then rest0.tail else rest0
    let ws := rest.takeWhile Char.isWhitespace
    let rest1 := rest.dropWhile Char.isWhitespace
    if ws.isEmpty then none
    else
      let ds1 := rest1.takeWhile Char.isDigit
      if ds1.isEmpty then none
      else
        let rest2 := (rest1.dropWhile Char.isDigit).dropWhile Char.isWhitespace
        let rest3 :=
          match rest2 with
          | 't' :: 'o' :: r => some r
          | '-' :: r => some r
          | _ => none
        match rest3 with
        | none => none
        | some r =>
          let r' := r.dropWhile Char.isWhitespace
          let ds2 := r'.takeWhile Char.isDigit
          if ds2.isEmpty then none else some (digitsVal ds1, digitsVal ds2)
  | _ => none

/-- `re.search`: try the pattern at each position, left to right. -/
def searchPos {α : Type} (f : List Char → Option α) : List Char → Option α
  | [] => none
  | c :: cs =>
    match f (c :: cs) with
    | some r => some r
    | none => searchPos f cs

/-- The `page_range` value the analyser extracts from a question: the
range pattern first, else the single-page pattern. -/
def extractPageRange (question : String) : Option (List Int) :=
  match searchPos matchRangeAt (lowerStr question) with
  | some (s, e) => some [(s : Int), (e : Int)]
  | none =>
    match searchPos matchSingleAt (lowerStr question) with
    | some p => some [(p : Int), (p : Int)]
    | none => none

/-- The section title the analyser extracts: the first known title whose
lowercase form occurs in the lowercased question (no titles supplied —
or an empty list, both falsy in Python — extracts nothing). -/
def extractSectionTitle (question : String) (sectionTitles : Option (List String)) :
    Option String :=
  match sectionTitles with
  | none => none
  | some titles => titles.find? (fun t => hasSubstr (lowerStr question) (lowerStr t))

/-- The table/chart keyword heuristic. -/
def tableKeyword (question : String) : Bool :=
  ["table", "tabular", "chart"].any (fun kw => hasSubstr (lowerStr question) kw.data)

/-- `QueryAnalyser.analyse`: start from the caller-supplied filters (or a
blank dict), then write each extracted value into its field. -/
def analyse (question : String) (existingFilters : Option QueryFilters)
    (sectionTitles : Option (List String)) : QueryFilters :=
  let filters :=
    match existingFilters with
    | some f => f
    | none => {}
  let filters1 :=
    match extractPageRange question with
    | some pr => { filters with page_range := some pr }
    | none => filters
  let filters2 :=
    match extractSectionTitle question sectionTitles with
    | some t => { filters1 with section_title := some t }
    | none => filters1
  if tableKeyword question then { filters2 with block_type := some "table" }
  else filters2

/-! ### `core/pipeline/retrieval.py` — `RetrievalPipeline.run`

The collaborators (reranker, context builder, prompt builder, LLM
client) are function parameters; the hybrid-search output (the searcher
returns a dict with `results` and `stats`) is an input.  The returned
`Nat` instruments the number of `llm_client.generate` calls. -/

/-- `stats_dict` as the pipeline reads it with `.get(key, 0)`. -/
structure StatsDict where
  dense_hits : Option Nat := none
  sparse_hits : Option Nat := none
  fused_candidates : Option Nat := none
  reranked_from : Option Nat := none
  final_count : Option Nat := none
deriving DecidableEq, Repr

/-- `RetrievalStats` (`models/query.py`). -/
structure RetrievalStatsM where
  dense_hits : Nat
  sparse_hits : Nat
  fused_candidates : Nat
  reranked_from : Nat
  final_count : Nat
deriving DecidableEq, Repr

/-- `Citation` (`models/query.py`). -/
structure Citation where
  doc_id : String
  source_file : String
  page_number : Nat
  page_range : List Nat
  section_path : Option String
  chunk_text_preview : String
  relevance_score : ℚ
deriving DecidableEq, Repr

/-- `QueryResponse` (`models/query.py`). -/
structure QueryResponse where
  question : String
  answer : String
  citations : List Citation
  model_used : String
  retrieval_stats : RetrievalStatsM
deriving DecidableEq, Repr

/-- A synchronous response or a stream (metadata frame, then tokens). -/
inductive RunResult where
  | sync (r : QueryResponse)
  | stream (meta : QueryResponse) (tokens : List String)
deriving DecidableEq, Repr

/-- `RetrievalPipeline._not_found_response`. -/
def notFoundResponse (question modelName : String) (sd : StatsDict) : QueryResponse :=
  { question := question
    answer := "not found in document"
    citations := []
    model_used := modelName
    retrieval_stats :=
      { dense_hits := sd.dense_hits.getD 0
        sparse_hits := sd.sparse_hits.getD 0
        fused_candidates := sd.fused_candidates.getD 0
        reranked_from := sd.reranked_from.getD 0
        final_count := 0 } }

/-- `RetrievalPipeline._assemble_response`. -/
def assembleResponse (question answer modelName : String)
    (contexts : List RetrievedContext) (sd : StatsDict) : QueryResponse :=
  { question := question
    answer := answer
    citations := contexts.map (fun ctx =>
      { doc_id := ctx.metadata.doc_id
        source_file := ctx.metadata.source_file
        page_number := ctx.metadata.page_number
        page_range := ctx.metadata.page_range
        section_path := ctx.metadata.section_path
        chunk_text_preview := ctx.parent_text.take 200
        relevance_score := ctx.rerank_score })
    model_used := modelName
    retrieval_stats :=
      { dense_hits := sd.dense_hits.getD 0
        sparse_hits := sd.sparse_hits.getD 0
        fused_candidates := sd.fused_candidates.getD 0
        reranked_from := sd.reranked_from.getD 0
        final_count := contexts.length } }

/-- `RetrievalPipeline.run` (steps 3-8): guard on empty fused results,
rerank, guard on empty contexts, prompt, generate (sync or streamed). -/
def runPipeline (modelName : String) (streamMode : Bool)
    (searchResults : List Cand) (searchStats : StatsDict)
    (rerankFn : List Cand → List Cand)
    (buildContext : List Cand → List RetrievedContext)
    (buildMessages : String → List RetrievedContext → List (String × String))
    (generateSync : List (String × String) → String)
    (generateStream : List (String × String) → List String)
    (question : String) : RunResult × Nat :=
  if searchResults.isEmpty then
    (RunResult.sync (notFoundResponse question modelName searchStats), 0)
  else
    let reranked := rerankFn searchResults
    let stats := { searchStats with
      reranked_from := some searchResults.length
      final_count := some reranked.length }
    let contexts := buildContext reranked
    if contexts.isEmpty then
      (RunResult.sync (notFoundResponse question modelName stats), 0)
    else
      let messages := buildMessages question contexts
      if streamMode then
        (RunResult.stream (assembleResponse question "" modelName contexts stats)
          (generateStream messages), 1)
      else
        (RunResult.sync
          (assembleResponse question (generateSync messages) modelName contexts stats), 1)

/-! ### Data model: parsed blocks and chunks
(`models/chunk.py: ParsedBlock, ChildChunk, ParentChunk`) -/

structure ParsedBlock where
  text : String
  page_number : Nat
  block_type : String
  font_size : Option ℚ := none
  font_name : Option String := none
  bounding_box : Option (List ℚ) := none
  section_path : Option String := none
  heading_level : Option Nat := none
deriving DecidableEq, Repr

structure ChildChunk where
  metadata : ChunkMetadata
  text : String
  embedding : Option (List ℚ) := none
deriving DecidableEq, Repr

structure ParentChunk where
  parent_id : String
  doc_id : String
  text : String
  page_range : List Nat
  section_path : Option String := none
  child_ids : List String
deriving DecidableEq, Repr

/-- `settings.chunking` (`config/settings.py: ChunkingConfig`). -/
structure ChunkingConfig where
  parent_chunk_size : Nat := 512
  parent_chunk_overlap : Nat := 64
  child_chunk_size : Nat := 128
  child_chunk_overlap : Nat := 16
  min_chunk_tokens : Nat := 40
deriving Repr

/-! ### `core/chunk/chunker.py` — `Chunker`

The tokenizer is a parameter pair `encode`/`decode`; SHA-256 hex is the
parameter `sha256`.  `_get_token_ranges` is a `while` loop, modelled with
fuel (`none` = the loop has not terminated within the fuel). -/

/-- One step of `_get_token_ranges`: at window start `s`, emit
`(s, min (s+size) total)`, stop when the window reaches the end, else
continue at `e - overlap` (clamped at 0 by `Nat` subtraction, as the
code clamps negatives). -/
def getTokenRangesFuel (size overlap total : Nat) : Nat → Nat → Option (List (Nat × Nat))
  | 0, _ => none
  | fuel + 1, s =>
    if s < total then
      let e := min (s + size) total
      if total ≤ e then some [(s, e)]
      else (getTokenRangesFuel size overlap total fuel (e - overlap)).map
        (fun rs => (s, e) :: rs)
    else some []

/-- `_get_token_ranges(total_tokens, size, overlap)`; `total + 1` fuel
suffices whenever `overlap < size` (proved below). -/
def getTokenRanges (total size overlap : Nat) : List (Nat × Nat) :=
  (getTokenRangesFuel size overlap total (total + 1) 0).getD []

/-- Python `f"{x}"` on an optional string (`None` prints as `"None"`). -/
def fmtOpt : Option String → String
  | some s => s
  | none => "None"

/-- Python list slicing `l[a:b]` (for `a ≤ b`). -/
def pySlice {α : Type} (l : List α) (a b : Nat) : List α := (l.take b).drop a

/-- Python `min` over a non-empty list (0 for the never-hit empty case). -/
def pyMin : List Nat → Nat
  | [] => 0
  | x :: xs => xs.foldl min x

/-- Python `max` over a non-empty list. -/
def pyMax : List Nat → Nat
  | [] => 0
  | x :: xs => xs.foldl max x

def findPageAux : List ParsedBlock → Nat → Nat → Option Nat
  | [], _, _ => none
  | b :: bs, current, off =>
    let current := current + b.text.length + 1
    if off < current then some b.page_number else findPageAux bs current off

/-- `Chunker._find_page_for_offset`. -/
def findPageForOffset (blocks : List ParsedBlock) (off : Nat) : Nat :=
  match findPageAux blocks 0 off with
  | some p => p
  | none =>
    match blocks.getLast? with
    | some b => b.page_number
    | none => 1

/-- `Chunker._group_by_section`: group consecutive blocks sharing a
`section_path`. -/
def groupBySection (blocks : List ParsedBlock) :
    List (Option String × List ParsedBlock) :=
  match blocks with
  | [] => []
  | b0 :: _ =>
    let step := fun (acc : Option String × List ParsedBlock ×
        List (Option String × List ParsedBlock)) (b : ParsedBlock) =>
      let (cp, cg, gs) := acc
      if b.section_path ≠ cp then (b.section_path, [b], gs ++ [(cp, cg)])
      else (cp, cg ++ [b], gs)
    let (cp, cg, gs) := blocks.foldl step (b0.section_path, ([] : List ParsedBlock), [])
    gs ++ [(cp, cg)]

/-- `Chunker._process_text_segment`: split a buffered text segment into
overlapping parent windows, each subdivided into child windows; children
carry temporary index-based ids, parents carry the content-addressed
`parent_id`. -/
def processTextSegment (sha256 : String → String) (encode : String → List Nat)
    (decode : List Nat → String) (cfg : ChunkingConfig) (embModel : String)
    (docId : String) (sectionPath : Option String) (text : String)
    (startIndex : Nat) (contributingBlocks : List ParsedBlock)
    (segmentStartOffset : Nat) : List ParentChunk × List ChildChunk × Nat :=
  let pages := contributingBlocks.map (fun b => b.page_number)
  let pageRange := [pyMin pages, pyMax pages]
  let fullTokens := encode text
  let parentRanges := getTokenRanges fullTokens.length cfg.parent_chunk_size
    cfg.parent_chunk_overlap
  parentRanges.foldl
    (fun acc pr =>
      let pStart := pr.1
      let pEnd := pr.2
      let absParentCharStart := segmentStartOffset + (decode (fullTokens.take pStart)).length
      let parentId := sha256 (docId ++ fmtOpt sectionPath ++ toString absParentCharStart)
      let pText := decode (pySlice fullTokens pStart pEnd)
      let parentLen := pEnd - pStart
      let childRangesRel := getTokenRanges parentLen cfg.child_chunk_size
        cfg.child_chunk_overlap
      let inner := childRangesRel.foldl
        (fun acc2 cr =>
          let cStartAbs := pStart + cr.1
          let cEndAbs := pStart + cr.2
          let cText := decode (pySlice fullTokens cStartAbs cEndAbs)
          let absChildCharStart := segmentStartOffset +
            (decode (fullTokens.take cStartAbs)).length
          let metadata : ChunkMetadata :=
            { chunk_id := "temp_" ++ toString acc2.2.2
              parent_id := parentId
              prev_chunk_id := none
              next_chunk_id := none
              doc_id := docId
              source_file := ""
              page_number := findPageForOffset contributingBlocks
                (absChildCharStart - segmentStartOffset)
              page_range := pageRange
              char_start := absChildCharStart
              char_end := absChildCharStart + cText.length
              section_path := sectionPath
              block_type := "text"
              token_count := (encode cText).length
              chunk_index := acc2.2.2
              total_chunks := 0
              is_near_heading := false
              chunk_level := "child"
              embedding_model := embModel
              created_at := "" }
          (acc2.1 ++ [({ metadata := metadata, text := cText } : ChildChunk)],
            acc2.2.1 ++ [metadata.chunk_id], acc2.2.2 + 1))
        (([] : List ChildChunk), ([] : List String), acc.2.2)
      let parent : ParentChunk :=
        { parent_id := parentId
          doc_id := docId
          text := pText
          page_range := pageRange
          section_path := sectionPath
          child_ids := inner.2.1 }
      (acc.1 ++ [parent], acc.2.1 ++ inner.1, inner.2.2))
    (([] : List ParentChunk), ([] : List ChildChunk), startIndex)

/-- `Chunker._process_atomic_block`: a table/heading block becomes one
parent with exactly one child, never subdivided. -/
def processAtomicBlock (sha256 : String → String) (encode : String → List Nat)
    (embModel : String) (docId : String) (sectionPath : Option String)
    (block : ParsedBlock) (startIndex : Nat) (offset : Nat) :
    List ParentChunk × List ChildChunk × Nat :=
  let parentId := sha256 (docId ++ fmtOpt sectionPath ++ toString offset)
  let pageRange := [block.page_number, block.page_number]
  let metadata : ChunkMetadata :=
    { chunk_id := "temp_" ++ toString startIndex
      parent_id := parentId
      prev_chunk_id := none
      next_chunk_id := none
      doc_id := docId
      source_file := ""
      page_number := block.page_number
      page_range := pageRange
      char_start := offset
      char_end := offset + block.text.length
      section_path := sectionPath
      block_type := block.block_type
      token_count := (encode block.text).length
      chunk_index := startIndex
      total_chunks := 0
      is_near_heading := false
      chunk_level := "child"
      embedding_model := embModel
      created_at := ""
      heading_level := if block.block_type = "heading" then block.heading_level else none }
  ([{ parent_id := parentId, doc_id := docId, text := block.text,
      page_range := pageRange, section_path := sectionPath,
      child_ids := [metadata.chunk_id] }],
    [{ metadata := metadata, text := block.text }], startIndex + 1)

/-- The running state of `chunk_document`. -/
structure ChunkState where
  parents : List ParentChunk := []
  children : List ChildChunk := []
  idx : Nat := 0
  cumOff : Nat := 0
deriving Repr

/-- Flush the buffered text blocks of one section. -/
def flushBuffer (sha256 : String → String) (encode : String → List Nat)
    (decode : List Nat → String) (cfg : ChunkingConfig) (embModel : String)
    (docId : String) (sectionPath : Option String) (st : ChunkState)
    (bufText : String) (bufBlocks : List ParsedBlock) (bufStart : Nat) : ChunkState :=
  let r := processTextSegment sha256 encode decode cfg embModel docId sectionPath
    bufText st.idx bufBlocks bufStart
  { st with
    parents := st.parents ++ r.1
    children := st.children ++ r.2.1
    idx := r.2.2 }

/-- One section's loop body of `chunk_document`: buffer prose blocks,
flush on atomic blocks and at section end. -/
def chunkStep (sha256 : String → String) (encode : String → List Nat)
    (decode : List Nat → String) (cfg : ChunkingConfig) (embModel : String)
    (docId : String) (sectionPath : Option String)
    (acc : ChunkState × String × List ParsedBlock × Nat) (b : ParsedBlock) :
    ChunkState × String × List ParsedBlock × Nat :=
  let st := acc.1
  let bufText := acc.2.1
  let bufBlocks := acc.2.2.1
  let bufStart := acc.2.2.2
  if b.block_type = "table" ∨ b.block_type = "heading" then
    let st1 :=
      if bufText ≠ "" then
        flushBuffer sha256 encode decode cfg embModel docId sectionPath st
          bufText bufBlocks bufStart
      else st
    let r := processAtomicBlock sha256 encode embModel docId sectionPath b
      st1.idx st1.cumOff
    let st2 : ChunkState :=
      { parents := st1.parents ++ r.1
        children := st1.children ++ r.2.1
        idx := r.2.2
        cumOff := st1.cumOff + b.text.length + 1 }
    (st2, "", [], bufStart)
  else
    let bufStart1 := if bufText = "" then st.cumOff else bufStart
    ({ st with cumOff := st.cumOff + b.text.length + 1 },
      bufText ++ b.text ++ " ", bufBlocks ++ [b], bufStart1)

def chunkSection (sha256 : String → String) (encode : String → List Nat)
    (decode : List Nat → String) (cfg : ChunkingConfig) (embModel : String)
    (docId : String) (sectionPath : Option String) (sblocks : List ParsedBlock)
    (st0 : ChunkState) : ChunkState :=
  let fin := sblocks.foldl
    (chunkStep sha256 encode decode cfg embModel docId sectionPath)
    (st0, "", ([] : List ParsedBlock), st0.cumOff)
  if fin.2.1 ≠ "" then
    flushBuffer sha256 encode decode cfg embModel docId sectionPath fin.1
      fin.2.1 fin.2.2.1 fin.2.2.2
  else fin.1

/-- `Chunker.chunk_document`: group by section, chunk each section. -/
def chunkDocument (sha256 : String → String) (encode : String → List Nat)
    (decode : List Nat → String) (cfg : ChunkingConfig) (embModel : String)
    (docId : String) (blocks : List ParsedBlock) :
    List ParentChunk × List ChildChunk :=
  let fin := (groupBySection blocks).foldl
    (fun st g => chunkSection sha256 encode decode cfg embModel docId g.1 g.2 st)
    {}
  (fin.parents, fin.children)

/-! ### `core/chunk/metadata_builder.py` — `MetadataBuilder.finalize_chunks` -/

/-- The authoritative id:
`sha256(doc_id + str(page_number) + str(char_start))`. -/
def authIdOf (sha256 : String → String) (docId : String) (c : ChildChunk) : String :=
  sha256 (docId ++ toString c.metadata.page_number ++ toString c.metadata.char_start)

/-- The temp-id → authoritative-id dict built in pass 1, read with Python
dict semantics (a later duplicate key wins); an unmapped id is kept. -/
def authSubst (sha256 : String → String) (docId : String)
    (children : List ChildChunk) (tid : String) : String :=
  match ((children.map (fun c => (c.metadata.chunk_id, authIdOf sha256 docId c))).reverse.find?
      (fun p => p.1 == tid)).map (fun p => p.2) with
  | some a => a
  | none => tid

/-- Pass 1 on one child: authoritative id, fixed fields, section titles
(only when `section_path` is truthy), `is_near_heading`. -/
def finalizeChild (sha256 : String → String) (docId sourceFile : String)
    (totalChunks : Nat) (createdAt : String) (headingIndices : List Nat)
    (i : Nat) (child : ChildChunk) : ChildChunk :=
  let meta := child.metadata
  let st :=
    match meta.section_path with
    | some sp =>
      if sp ≠ "" then
        let parts : List String := (sp.splitOn ">").map String.trim
        (parts.get? 0, parts.get? 1)
      else (meta.section_title, meta.subsection_title)
    | none => (meta.section_title, meta.subsection_title)
  { child with
    metadata := { meta with
      chunk_id := authIdOf sha256 docId child
      source_file := sourceFile
      total_chunks := totalChunks
      created_at := createdAt
      section_title := st.1
      subsection_title := st.2
      is_near_heading :=
        headingIndices.any (fun h => (Int.ofNat i - Int.ofNat h).natAbs ≤ 2) } }

/-- Pass 2 on one child: link `prev_chunk_id`/`next_chunk_id` by document
order (boundary values keep what pass 1 left). -/
def withLinks (l : List ChildChunk) (total : Nat) (i : Nat) (c : ChildChunk) : ChildChunk :=
  let meta := c.metadata
  let meta1 :=
    if 0 < i then
      { meta with prev_chunk_id := (l.get? (i - 1)).map (fun x => x.metadata.chunk_id) }
    else meta
  let meta2 :=
    if i < total - 1 then
      { meta1 with next_chunk_id := (l.get? (i + 1)).map (fun x => x.metadata.chunk_id) }
    else meta1
  { c with metadata := meta2 }

def linkPass (l : List ChildChunk) (total : Nat) : List ChildChunk :=
  l.enum.map (fun ic => withLinks l total ic.1 ic.2)

/-- The indices of heading-typed children (pass 1 scan). -/
def headingIdx (children : List ChildChunk) : List Nat :=
  (children.enum.filter (fun ic => ic.2.metadata.block_type == "heading")).map
    (fun ic => ic.1)

/-- `MetadataBuilder.finalize_chunks` (functional form; `original_blocks`
is also unused in the source body). -/
def finalizeChunks (sha256 : String → String) (docId sourceFile : String)
    (_originalBlocks : List ParsedBlock) (parents : List ParentChunk)
    (children : List ChildChunk) (createdAt : String) :
    List ParentChunk × List ChildChunk :=
  let totalChunks := children.length
  let p1 := children.enum.map
    (fun ic => finalizeChild sha256 docId sourceFile totalChunks createdAt
      (headingIdx children) ic.1 ic.2)
  let linked := linkPass p1 totalChunks
  let parents2 := parents.map
    (fun parent =>
      { parent with child_ids := parent.child_ids.map (authSubst sha256 docId children) })
  (parents2, linked)

/-- The parent-id shape invariant: a content-addressed hash of
`(doc_id, section_path, absolute char start)`. -/
def GoodParent (sha256 : String → String) (docId : String) (p : ParentChunk) : Prop :=
  ∃ off : Nat, p.parent_id = sha256 (docId ++ fmtOpt p.section_path ++ toString off)

/-! ### `core/pipeline/ingestion.py` — `IngestionPipeline.run`

The orchestrator's collaborators (file read, `file_store.save_pdf`,
`parser.parse`, `structure_detector.detect`, `chunker.chunk_document`,
`metadata_builder.finalize_chunks`, `embedder.embed_chunks`,
`vector_store.upsert`, `bm25_store.build`, `file_store.save_parent_chunks`)
are parameters returning `Except String`; a Python exception is `.error`
with its message. The result is the list of `(percent, message)` calls made
to the progress callback, and `some e` when the run re-raises `e`. -/

def updProg (hasCallback : Bool) (tr : List (Int × String)) (p : Int)
    (msg : String) : List (Int × String) :=
  if hasCallback then tr ++ [(p, msg)] else tr

def failProg (hasCallback : Bool) (tr : List (Int × String)) (e : String) :
    List (Int × String) :=
  if hasCallback then tr ++ [((-1 : Int), e)] else tr

def runIngestion (hasCallback : Bool)
    (readFile : Except String (List Nat))
    (savePdf : List Nat → Except String Unit)
    (parse : Except String (List ParsedBlock))
    (detect : List ParsedBlock → Except String (List ParsedBlock))
    (chunkDoc : List ParsedBlock → Except String (List ParentChunk × List ChildChunk))
    (finalize : List ParsedBlock → List ParentChunk → List ChildChunk →
      Except String (List ParentChunk × List ChildChunk))
    (embedChunks : List ChildChunk → Except String (List ChildChunk))
    (upsert : List ChildChunk → Except String Unit)
    (bm25Build : List ChildChunk → Except String Unit)
    (saveParents : List ParentChunk → Except String Unit) :
    List (Int × String) × Option String :=
  let tr1 := updProg hasCallback [] 5 "Starting processing"
  match readFile with
  | .error e => (failProg hasCallback tr1 e, some e)
  | .ok fileBytes =>
  match savePdf fileBytes with
  | .error e => (failProg hasCallback tr1 e, some e)
  | .ok _ =>
  let tr2 := updProg hasCallback tr1 8 "PDF saved to storage"
  let tr3 := updProg hasCallback tr2 10 "Parsing PDF layout"
  match parse with
  | .error e => (failProg hasCallback tr3 e, some e)
  | .ok rawBlocks =>
  let tr4 := updProg hasCallback tr3 25
    ("Extracted " ++ toString rawBlocks.length ++ " blocks")
  let tr5 := updProg hasCallback tr4 30 "Detecting document structure"
  match detect rawBlocks with
  | .error e => (failProg hasCallback tr5 e, some e)
  | .ok enrichedBlocks =>
  let tr6 := updProg hasCallback tr5 35 "Structure enrichment complete"
  let tr7 := updProg hasCallback tr6 40 "Creating parent-child chunks"
  match chunkDoc enrichedBlocks with
  | .error e => (failProg hasCallback tr7 e, some e)
  | .ok pc =>
  let tr8 := updProg hasCallback tr7 50
    ("Generated " ++ toString pc.1.length ++ " parents and " ++
      toString pc.2.length ++ " children")
  let tr9 := updProg hasCallback tr8 55 "Finalizing metadata and IDs"
  match finalize enrichedBlocks pc.1 pc.2 with
  | .error e => (failProg hasCallback tr9 e, some e)
  | .ok pc2 =>
  let tr10 := updProg hasCallback tr9 60 "Metadata finalized"
  let tr11 := updProg hasCallback tr10 65
    "Generating embeddings (this may take a moment)"
  match embedChunks pc2.2 with
  | .error e => (failProg hasCallback tr11 e, some e)
  | .ok children2 =>
  let tr12 := updProg hasCallback tr11 85 "Embedding complete"
  let tr13 := updProg hasCallback tr12 90 "Indexing vectors in Qdrant"
  match upsert children2 with
  | .error e => (failProg hasCallback tr13 e, some e)
  | .ok _ =>
  let tr14 := updProg hasCallback tr13 95 "Building BM25 index"
  match bm25Build children2 with
  | .error e => (failProg hasCallback tr14 e, some e)
  | .ok _ =>
  let tr15 := updProg hasCallback tr14 98 "Saving parent chunks for context retrieval"
  match saveParents pc2.1 with
  | .error e => (failProg hasCallback tr15 e, some e)
  | .ok _ =>
  (updProg hasCallback tr15 100 "Ingestion completed successfully", none)

theorem mem_insertDescBy {α : Type} (key : α → ℚ) (x : α) (l : List α) (z : α) :
    z ∈ insertDescBy key x l ↔ z = x ∨ z ∈ l := by
  induction l with
  | nil => simp [insertDescBy]
  | cons y ys ih =>
    by_cases h : key x < key y
    · simp only [insertDescBy, if_pos h, List.mem_cons, ih]
      tauto
    · simp only [insertDescBy, if_neg h, List.mem_cons]

theorem insertDescBy_perm {α : Type} (key : α → ℚ) (x : α) (l : List α) :
    (insertDescBy key x l).Perm (x :: l) := by
  induction l with
  | nil => simp [insertDescBy]
  | cons y ys ih =>
    by_cases h : key x < key y
    · simp only [insertDescBy, if_pos h]
      exact (ih.cons y).trans (List.Perm.swap x y ys)
    · simp [insertDescBy, if_neg h]

theorem sortDescBy_perm {α : Type} (key : α → ℚ) (l : List α) :
    (sortDescBy key l).Perm l := by
  induction l with
  | nil => simp [sortDescBy]
  | cons x xs ih =>
    exact (insertDescBy_perm key x (sortDescBy key xs)).trans (ih.cons x)

theorem mem_sortDescBy {α : Type} (key : α → ℚ) (l : List α) (z : α) :
    z ∈ sortDescBy key l ↔ z ∈ l :=
  (sortDescBy_perm key l).mem_iff

theorem sorted_insertDescBy {α : Type} (key : α → ℚ) (x : α) (l : List α)
    (h : l.Sorted (fun a b => key b ≤ key a)) :
    (insertDescBy key x l).Sorted (fun a b => key b ≤ key a) := by
  induction l with
  | nil => simp [insertDescBy]
  | cons y ys ih =>
    rcases List.sorted_cons.mp h with ⟨hy, hys⟩
    by_cases hk : key x < key y
    · simp only [insertDescBy, if_pos hk]
      refine List.sorted_cons.mpr ⟨?_, ih hys⟩
      intro z hz
      rcases (mem_insertDescBy key x ys z).mp hz with rfl | hz
      · exact le_of_lt hk
      · exact hy z hz
    · simp only [insertDescBy, if_neg hk]
      refine List.sorted_cons.mpr ⟨?_, h⟩
      intro z hz
      rcases List.mem_cons.mp hz with rfl | hz
      · exact le_of_not_lt hk
      · exact le_trans (hy z hz) (le_of_not_lt hk)

theorem sorted_sortDescBy {α : Type} (key : α → ℚ) (l : List α) :
    (sortDescBy key l).Sorted (fun a b => key b ≤ key a) := by
  induction l with
  | nil => simp [sortDescBy]
  | cons x xs ih => exact sorted_insertDescBy key x _ ih

theorem filter_insertDescBy_eq {α : Type} (key : α → ℚ) (x : α) (l : List α)
    (q : ℚ) (hx : key x = q) :
    (insertDescBy key x l).filter (fun z => key z == q) =
      x :: l.filter (fun z => key z == q) := by
  subst hx
  induction l with
  | nil => simp [insertDescBy]
  | cons y ys ih =>
    by_cases hk : key x < key y
    · have hy : ¬ key y = key x := fun hq => absurd (hq ▸ hk) (lt_irrefl _)
      simp [insertDescBy, hk, List.filter_cons, hy, ih]
    · simp [insertDescBy, hk, List.filter_cons]

theorem filter_insertDescBy_ne {α : Type} (key : α → ℚ) (x : α) (l : List α)
    (q : ℚ) (hx : key x ≠ q) :
    (insertDescBy key x l).filter (fun z => key z == q) =
      l.filter (fun z => key z == q) := by
  induction l with
  | nil => simp [insertDescBy, hx]
  | cons y ys ih =>
    by_cases hk : key x < key y
    · simp only [insertDescBy, if_pos hk, List.filter_cons, ih]
    · simp [insertDescBy, if_neg hk, List.filter_cons, hx]

/-- Stability of the sort: elements with any fixed key keep their
original relative order. -/
theorem filter_sortDescBy {α : Type} (key : α → ℚ) (l : List α) (q : ℚ) :
    (sortDescBy key l).filter (fun z => key z == q) =
      l.filter (fun z => key z == q) := by
  induction l with
  | nil => simp [sortDescBy]
  | cons x xs ih =>
    by_cases hx : key x = q
    · rw [sortDescBy, filter_insertDescBy_eq key x _ q hx, ih,
        List.filter_cons, if_pos (by simpa using hx)]
    · rw [sortDescBy, filter_insertDescBy_ne key x _ q hx, ih,
        List.filter_cons, if_neg (by simpa using hx)]

theorem dlookup_nil {β : Type} (k : String) : dlookup ([] : List (String × β)) k = none := rfl

theorem dlookup_cons {β : Type} (k' : String) (v' : β) (rest : List (String × β)) (k : String) :
    dlookup ((k', v') :: rest) k = if k' = k then some v' else dlookup rest k := by
  by_cases h : k' = k
  · simp only [dlookup, if_pos h]
    rw [List.find?_cons_of_pos _ (by simpa using h)]
    rfl
  · simp only [dlookup, if_neg h]
    rw [List.find?_cons_of_neg _ (by simpa using h)]

theorem dlookup_dadd (m : List (String × ℚ)) (k k' : String) (v : ℚ) :
    dlookup (dadd m k v) k' =
      if k' = k then some ((dlookup m k).getD 0 + v) else dlookup m k' := by
  induction m with
  | nil =>
    simp only [dadd, dlookup_cons, dlookup_nil]
    by_cases h : k = k'
    · subst h
      simp
    · rw [if_neg h, if_neg (fun hh : k' = k => h hh.symm)]
  | cons p rest ih =>
    obtain ⟨k₀, v₀⟩ := p
    by_cases h0 : k₀ = k
    · subst h0
      by_cases h : k₀ = k'
      · subst h
        simp [dadd, dlookup_cons]
      · have h' : ¬ k' = k₀ := fun hh => h hh.symm
        simp [dadd, dlookup_cons, h, h']
    · by_cases h : k₀ = k'
      · subst h
        have h' : ¬ k₀ = k := h0
        simp [dadd, dlookup_cons, h0, h', ih]
      · simp [dadd, dlookup_cons, h0, h, ih]

theorem keys_dadd_mem (m : List (String × ℚ)) (k : String) (v : ℚ)
    (h : k ∈ m.map Prod.fst) :
    (dadd m k v).map Prod.fst = m.map Prod.fst := by
  induction m with
  | nil => simp at h
  | cons p rest ih =>
    obtain ⟨k₀, v₀⟩ := p
    by_cases h0 : k₀ = k
    · simp [dadd, h0]
    · have hm : k = k₀ ∨ k ∈ rest.map Prod.fst := by simpa using h
      rcases hm with h1 | h1
      · exact absurd h1.symm h0
      · simp [dadd, h0, ih h1]

theorem keys_dadd_not_mem (m : List (String × ℚ)) (k : String) (v : ℚ)
    (h : k ∉ m.map Prod.fst) :
    (dadd m k v).map Prod.fst = m.map Prod.fst ++ [k] := by
  induction m with
  | nil => simp [dadd]
  | cons p rest ih =>
    obtain ⟨k₀, v₀⟩ := p
    have h0 : ¬ k₀ = k := by
      intro hh
      exact h (by simp [hh])
    have hrest : k ∉ rest.map Prod.fst := fun hh => h (by simp [hh])
    simp [dadd, h0, ih hrest]

theorem dlookup_isSome_iff_mem_keys {β : Type} (m : List (String × β)) (k : String) :
    (dlookup m k).isSome ↔ k ∈ m.map Prod.fst := by
  induction m with
  | nil => simp [dlookup_nil]
  | cons p rest ih =>
    obtain ⟨k₀, v₀⟩ := p
    by_cases h : k₀ = k
    · subst h
      simp [dlookup_cons]
    · have h' : ¬ k = k₀ := fun hh => h hh.symm
      simp [dlookup_cons, h, h', ih]

/-- Keys bound in a dict built with `dadd` are unique. -/
theorem nodup_keys_dadd (m : List (String × ℚ)) (k : String) (v : ℚ)
    (h : (m.map Prod.fst).Nodup) : ((dadd m k v).map Prod.fst).Nodup := by
  by_cases hk : k ∈ m.map Prod.fst
  · rw [keys_dadd_mem m k v hk]
    exact h
  · rw [keys_dadd_not_mem m k v hk]
    refine List.Nodup.append h (List.nodup_singleton _) ?_
    intro a ha hb
    rcases List.mem_singleton.mp hb with rfl
    exact hk ha

/-- With unique keys, a binding is in the dict iff lookup returns it. -/
theorem mem_iff_dlookup {β : Type} (m : List (String × β)) (k : String) (v : β)
    (h : (m.map Prod.fst).Nodup) : (k, v) ∈ m ↔ dlookup m k = some v := by
  induction m with
  | nil => simp [dlookup_nil]
  | cons p rest ih =>
    obtain ⟨k₀, v₀⟩ := p
    have hk₀ : k₀ ∉ rest.map Prod.fst := by
      have h' := h
      simp only [List.map_cons, List.nodup_cons] at h'
      exact h'.1
    have hrest : (rest.map Prod.fst).Nodup := by
      simp only [List.map_cons, List.nodup_cons] at h
      exact h.2
    by_cases hk : k₀ = k
    · subst hk
      rw [dlookup_cons, if_pos rfl]
      constructor
      · intro hm
        rcases List.mem_cons.mp hm with h1 | h1
        · exact congrArg some (congrArg Prod.snd h1).symm
        · exact absurd (List.mem_map.mpr ⟨(k₀, v), h1, rfl⟩) hk₀
      · intro h1
        have hv : v₀ = v := Option.some.inj h1
        subst hv
        exact List.mem_cons_self _ _
    · rw [dlookup_cons, if_neg hk, ← ih hrest]
      constructor
      · intro hm
        rcases List.mem_cons.mp hm with h1 | h1
        · exact absurd (congrArg Prod.fst h1).symm hk
        · exact h1
      · exact fun h1 => List.mem_cons_of_mem _ h1

theorem rrfTerm_eq_zero_of_not_mem (rrfK : Nat) (ids : List String) (id : String)
    (h : id ∉ ids) : rrfTerm rrfK ids id = 0 := by
  have hidx : ids.findIdx? (fun c => c == id) = none := by
    rw [List.findIdx?_eq_none_iff]
    intro x hx
    simpa using fun hh : x = id => h (hh ▸ hx)
  simp [rrfTerm, hidx]

theorem keys_rrfContribs (rrfK : Nat) (r : Nat) (ids : List String) :
    (rrfContribs rrfK r ids).map Prod.fst = ids := by
  induction ids generalizing r with
  | nil => rfl
  | cons c rest ih => simp [rrfContribs, ih]

theorem filter_rrfContribs_not_mem (rrfK : Nat) (r : Nat) (ids : List String)
    (id : String) (h : id ∉ ids) :
    (rrfContribs rrfK r ids).filter (fun p => p.1 == id) = [] := by
  induction ids generalizing r with
  | nil => rfl
  | cons c rest ih =>
    have hc : ¬ c = id := fun hh => h (hh ▸ List.mem_cons_self c rest)
    have hr : id ∉ rest := fun hh => h (List.mem_cons_of_mem c hh)
    simp [rrfContribs, List.filter_cons, hc, ih _ hr]

/-- The summed contribution of one arm for `id`: with distinct ids it is
`1/(k + r + i)` where `i` is the 0-based position of `id`. -/
theorem sum_filter_rrfContribs (rrfK : Nat) (ids : List String) (id : String)
    (h : ids.Nodup) (r : Nat) :
    (((rrfContribs rrfK r ids).filter (fun p => p.1 == id)).map Prod.snd).sum =
      (match ids.findIdx? (fun c => c == id) with
       | some i => 1 / ((rrfK : ℚ) + ((r : ℚ) + (i : ℚ)))
       | none => 0) := by
  induction ids generalizing r with
  | nil => rfl
  | cons c rest ih =>
    rcases List.nodup_cons.mp h with ⟨hc, hrest⟩
    by_cases hce : c = id
    · subst hce
      rw [List.findIdx?_cons]
      simp only [beq_self_eq_true, cond_true]
      rw [rrfContribs]
      rw [List.filter_cons_of_pos (by simp)]
      rw [filter_rrfContribs_not_mem rrfK (r + 1) rest c hc]
      simp
    · rw [List.findIdx?_cons]
      have hcf : (c == id) = false := by simpa using hce
      rw [hcf, if_neg (by simp), List.findIdx?_succ]
      rw [rrfContribs]
      rw [List.filter_cons_of_neg (by simpa using hce)]
      rw [ih hrest (r + 1)]
      rcases hidx : rest.findIdx? (fun x => x == id) with _ | i
      · simp [hidx]
      · simp only [hidx, Option.map_some]
        congr 1
        push_cast
        ring

/-- Folding contributions into a dict: lookup is the prior value (default
0) plus the summed contribution; the id is bound iff it was bound before
or contributes. -/
theorem dlookup_foldl_dadd (contribs : List (String × ℚ))
    (m : List (String × ℚ)) (id : String) :
    dlookup (contribs.foldl (fun m p => dadd m p.1 p.2) m) id =
      if id ∈ m.map Prod.fst ∨ id ∈ contribs.map Prod.fst then
        some ((dlookup m id).getD 0 +
          ((contribs.filter (fun p => p.1 == id)).map Prod.snd).sum)
      else none := by
  induction contribs generalizing m with
  | nil =>
    simp only [List.foldl_nil, List.map_nil, List.filter_nil, List.map_nil,
      List.sum_nil, add_zero, List.not_mem_nil, or_false]
    by_cases h : id ∈ m.map Prod.fst
    · rw [if_pos h]
      rcases (dlookup_isSome_iff_mem_keys m id).mpr h |> Option.isSome_iff_exists.mp with ⟨v, hv⟩
      simp [hv]
    · rw [if_neg h]
      rcases hl : dlookup m id with _ | v
      · rfl
      · exact absurd ((dlookup_isSome_iff_mem_keys m id).mp (by simp [hl])) h
  | cons p rest ih =>
    obtain ⟨k, v⟩ := p
    simp only [List.foldl_cons]
    rw [ih]
    by_cases hk : k = id
    · subst hk
      have hmem : k ∈ (dadd m k v).map Prod.fst := by
        rw [← dlookup_isSome_iff_mem_keys, dlookup_dadd]
        simp
      rw [if_pos (Or.inl hmem), if_pos (Or.inr (by simp))]
      rw [dlookup_dadd, if_pos rfl]
      rw [List.filter_cons_of_pos (by simp)]
      simp only [Option.getD_some, List.map_cons, List.sum_cons]
      ring_nf
    · have hkeys : id ∈ (dadd m k v).map Prod.fst ↔ id ∈ m.map Prod.fst := by
        rw [← dlookup_isSome_iff_mem_keys, ← dlookup_isSome_iff_mem_keys,
          dlookup_dadd, if_neg (fun hh : id = k => hk hh.symm)]
      have hfilter : (((k, v) :: rest).filter (fun p => p.1 == id)) =
          rest.filter (fun p => p.1 == id) := by
        rw [List.filter_cons_of_neg (by simpa using hk)]
      have hlk : dlookup (dadd m k v) id = dlookup m id := by
        rw [dlookup_dadd, if_neg (fun hh : id = k => hk hh.symm)]
      simp only [hkeys, hlk, hfilter, List.map_cons, List.mem_cons]
      by_cases hm : id ∈ m.map Prod.fst ∨ id ∈ rest.map Prod.fst
      · rw [if_pos hm, if_pos (by tauto)]
      · rw [if_neg hm, if_neg (by tauto)]

theorem keys_foldl_dadd_fresh (contribs : List (String × ℚ)) (m : List (String × ℚ))
    (h1 : (contribs.map Prod.fst).Nodup)
    (h2 : ∀ x ∈ contribs.map Prod.fst, x ∉ m.map Prod.fst) :
    (contribs.foldl (fun m p => dadd m p.1 p.2) m).map Prod.fst =
      m.map Prod.fst ++ contribs.map Prod.fst := by
  induction contribs generalizing m with
  | nil => simp
  | cons p rest ih =>
    obtain ⟨k, v⟩ := p
    have h1' : k ∉ rest.map Prod.fst ∧ (rest.map Prod.fst).Nodup := by
      rw [List.map_cons] at h1
      exact List.nodup_cons.mp h1
    have hkm : k ∉ m.map Prod.fst := h2 k (by simp)
    have hfresh : ∀ x ∈ rest.map Prod.fst, x ∉ (dadd m k v).map Prod.fst := by
      intro x hx
      rw [keys_dadd_not_mem m k v hkm]
      intro hmem
      rcases List.mem_append.mp hmem with hm | hm
      · exact h2 x (by simp [hx]) hm
      · rcases List.mem_singleton.mp hm with rfl
        exact h1'.1 hx
    simp only [List.foldl_cons]
    rw [ih (dadd m k v) h1'.2 hfresh, keys_dadd_not_mem m k v hkm]
    simp

theorem keys_foldl_dadd_exists (contribs : List (String × ℚ)) (m : List (String × ℚ)) :
    ∃ t, (contribs.foldl (fun m p => dadd m p.1 p.2) m).map Prod.fst =
      m.map Prod.fst ++ t ∧ ∀ x ∈ t, x ∉ m.map Prod.fst := by
  induction contribs generalizing m with
  | nil => exact ⟨[], by simp⟩
  | cons p rest ih =>
    obtain ⟨k, v⟩ := p
    simp only [List.foldl_cons]
    by_cases hk : k ∈ m.map Prod.fst
    · rcases ih (dadd m k v) with ⟨t, ht, hdisj⟩
      refine ⟨t, ?_, ?_⟩
      · rw [ht, keys_dadd_mem m k v hk]
      · intro x hx
        rw [← keys_dadd_mem m k v hk]
        exact hdisj x hx
    · rcases ih (dadd m k v) with ⟨t, ht, hdisj⟩
      refine ⟨k :: t, ?_, ?_⟩
      · rw [ht, keys_dadd_not_mem m k v hk]
        simp
      · intro x hx
        rcases List.mem_cons.mp hx with rfl | hx
        · exact hk
        · intro hxm
          exact hdisj x hx (by rw [keys_dadd_not_mem m k v hk]; exact List.mem_append_left _ hxm)

theorem nodup_keys_foldl_dadd (contribs : List (String × ℚ)) (m : List (String × ℚ))
    (h : (m.map Prod.fst).Nodup) :
    ((contribs.foldl (fun m p => dadd m p.1 p.2) m).map Prod.fst).Nodup := by
  induction contribs generalizing m with
  | nil => exact h
  | cons p rest ih =>
    simp only [List.foldl_cons]
    exact ih _ (nodup_keys_dadd m p.1 p.2 h)

/-- Folding one arm's contributions into a dict, with the sum collapsed
to the specified single RRF term. -/
theorem dlookup_foldl_rrf (rrfK : Nat) (ids : List String) (h : ids.Nodup)
    (m : List (String × ℚ)) (id : String) :
    dlookup ((rrfContribs rrfK 1 ids).foldl (fun m p => dadd m p.1 p.2) m) id =
      if id ∈ m.map Prod.fst ∨ id ∈ ids then
        some ((dlookup m id).getD 0 + rrfTerm rrfK ids id)
      else none := by
  rw [dlookup_foldl_dadd, keys_rrfContribs, sum_filter_rrfContribs rrfK ids id h 1]
  rcases hidx : ids.findIdx? (fun c => c == id) with _ | i
  · simp [rrfTerm, hidx]
  · simp only [rrfTerm, hidx, Nat.cast_one]
    rw [add_comm (1 : ℚ) (i : ℚ)]

/-- The fused dict's value at any bound id is the specified RRF score. -/
theorem dlookup_fusedScores (rrfK : Nat) (dense : List Hit) (sparse : List (String × ℚ))
    (hd : (dense.map (fun h => h.chunk_id)).Nodup)
    (hs : (sparse.map Prod.fst).Nodup) (id : String) :
    dlookup (fusedScores rrfK dense sparse) id =
      if id ∈ dense.map (fun h => h.chunk_id) ∨ id ∈ sparse.map Prod.fst then
        some (specRRFScore rrfK (dense.map (fun h => h.chunk_id)) (sparse.map Prod.fst) id)
      else none := by
  have hkeysA : (((rrfContribs rrfK 1 (dense.map (fun h => h.chunk_id))).foldl
      (fun m p => dadd m p.1 p.2) [])).map Prod.fst = dense.map (fun h => h.chunk_id) := by
    have h0 := keys_foldl_dadd_fresh (rrfContribs rrfK 1 (dense.map (fun h => h.chunk_id))) []
      (by rw [keys_rrfContribs]; exact hd) (by simp)
    simpa [keys_rrfContribs] using h0
  simp only [fusedScores]
  rw [dlookup_foldl_rrf rrfK (sparse.map Prod.fst) hs _ id, hkeysA,
    dlookup_foldl_rrf rrfK (dense.map (fun h => h.chunk_id)) hd [] id]
  simp only [dlookup_nil, Option.getD_none, List.map_nil, List.not_mem_nil, false_or,
    zero_add]
  rw [specRRFScore]
  by_cases hmd : id ∈ dense.map (fun h => h.chunk_id)
  · rw [if_pos hmd, if_pos (Or.inl hmd), if_pos (Or.inl hmd)]
    simp
  · rw [if_neg hmd, rrfTerm_eq_zero_of_not_mem rrfK _ id hmd]
    by_cases hms : id ∈ sparse.map Prod.fst
    · rw [if_pos (Or.inr hms), if_pos (Or.inr hms)]
      simp
    · rw [if_neg (by tauto), if_neg (by tauto)]

theorem dlookup_dset {β : Type} (m : List (String × β)) (k k' : String) (v : β) :
    dlookup (dset m k v) k' = if k' = k then some v else dlookup m k' := by
  induction m with
  | nil =>
    simp only [dset, dlookup_cons, dlookup_nil]
    by_cases h : k = k'
    · subst h
      simp
    · rw [if_neg h, if_neg (fun hh : k' = k => h hh.symm)]
  | cons p rest ih =>
    obtain ⟨k₀, v₀⟩ := p
    by_cases h0 : k₀ = k
    · subst h0
      by_cases h : k₀ = k'
      · subst h
        simp [dset, dlookup_cons]
      · have h' : ¬ k' = k₀ := fun hh => h hh.symm
        simp [dset, dlookup_cons, h, h']
    · by_cases h : k₀ = k'
      · subst h
        simp [dset, dlookup_cons, h0, ih]
      · simp [dset, dlookup_cons, h0, h, ih]

theorem dlookup_foldl_dset_isSome (hits : List Hit) (m : List (String × Payload))
    (k : String) :
    (dlookup (hits.foldl (fun m h => dset m h.chunk_id h.payload) m) k).isSome ↔
      (dlookup m k).isSome ∨ k ∈ hits.map (fun h => h.chunk_id) := by
  induction hits generalizing m with
  | nil => simp
  | cons h rest ih =>
    simp only [List.foldl_cons, List.map_cons, List.mem_cons]
    rw [ih]
    rw [dlookup_dset]
    by_cases hk : k = h.chunk_id
    · simp [hk]
    · simp [hk]

theorem payloads0_def (dense : List Hit) :
    payloads0 dense = dense.foldl (fun m h => dset m h.chunk_id h.payload) [] := rfl

theorem payloadsResolved_def (getByIds : List String → List Hit)
    (cfg : RetrievalConfig) (dense : List Hit) (sparse : List (String × ℚ)) :
    payloadsResolved getByIds cfg dense sparse =
      (if (sparseOnlyIds cfg dense sparse).isEmpty then []
        else getByIds (sparseOnlyIds cfg dense sparse)).foldl
        (fun m h => dset m h.chunk_id h.payload) (payloads0 dense) := rfl

theorem fusedSorted_def (rrfK : Nat) (dense : List Hit) (sparse : List (String × ℚ)) :
    fusedSorted rrfK dense sparse =
      sortDescBy (fun p => p.2) (fusedScores rrfK dense sparse) := rfl

theorem keys_afterDense (rrfK : Nat) (dense : List Hit)
    (hd : (dense.map (fun h => h.chunk_id)).Nodup) :
    (((rrfContribs rrfK 1 (dense.map (fun h => h.chunk_id))).foldl
      (fun m p => dadd m p.1 p.2) [])).map Prod.fst = dense.map (fun h => h.chunk_id) := by
  have h0 := keys_foldl_dadd_fresh (rrfContribs rrfK 1 (dense.map (fun h => h.chunk_id))) []
    (by rw [keys_rrfContribs]; exact hd) (by simp)
  simpa [keys_rrfContribs] using h0

theorem mem_finalLoop (fileStore : Option (String → String → Option ParentChunkQ))
    (payloads : List (String × Payload))
    (cache : List (String × List (String × ParentChunkQ)))
    (l : List (String × ℚ)) (p : String × ℚ) (hp : p ∈ l)
    (hsome : (dlookup payloads p.1).isSome) :
    p.1 ∈ (finalLoop fileStore payloads cache l).map (fun c => c.chunk_id) := by
  induction l with
  | nil => simp at hp
  | cons q rest ih =>
    rcases List.mem_cons.mp hp with rfl | hp'
    · rcases hq : dlookup payloads p.1 with _ | pl
      · rw [hq] at hsome
        simp at hsome
      · simp [finalLoop, hq]
    · rcases hq : dlookup payloads q.1 with _ | pl
      · simpa [finalLoop, hq] using ih hp'
      · simp only [finalLoop, hq, List.map_cons, List.mem_cons]
        exact Or.inr (ih hp')

/-- C1: a sparse-only hit within the top `rerank_top_k` fused candidates
is requested from `get_by_ids` in the one batched lookup, and — provided
the store resolves requested ids — still appears in the final fused
candidate list: it is never dropped merely because the dense arm did not
return it. -/
theorem fusion_no_drop
    (fileStore : Option (String → String → Option ParentChunkQ))
    (getByIds : List String → List Hit) (cfg : RetrievalConfig)
    (dense : List Hit) (sparse : List (String × ℚ)) (id : String)
    (_h1 : id ∈ sparse.map Prod.fst)
    (h2 : id ∉ dense.map (fun h => h.chunk_id))
    (h3 : id ∈ (topCandidates cfg dense sparse).map Prod.fst)
    (h4 : ∀ ids, id ∈ ids → id ∈ (getByIds ids).map (fun h => h.chunk_id)) :
    id ∈ sparseOnlyIds cfg dense sparse ∧
      id ∈ (finalResults fileStore getByIds cfg dense sparse).map
        (fun c => c.chunk_id) := by
  have hmiss : dlookup (payloads0 dense) id = none := by
    rcases hq : dlookup (payloads0 dense) id with _ | v
    · rfl
    · exfalso
      have hsome : (dlookup (dense.foldl (fun m h => dset m h.chunk_id h.payload) []) id).isSome := by
        rw [← payloads0_def, hq]
        rfl
      rcases (dlookup_foldl_dset_isSome dense [] id).mp hsome with hfalse | hmem
      · simp [dlookup_nil] at hfalse
      · exact h2 hmem
  rcases List.mem_map.mp h3 with ⟨p, hp, hfst⟩
  have hso : id ∈ sparseOnlyIds cfg dense sparse := by
    rw [sparseOnlyIds]
    refine List.mem_map.mpr ⟨p, ?_, hfst⟩
    refine List.mem_filter.mpr ⟨hp, ?_⟩
    rw [hfst]
    simp [hmiss]
  refine ⟨hso, ?_⟩
  have hne : ((sparseOnlyIds cfg dense sparse).isEmpty) = false := by
    rcases h : (sparseOnlyIds cfg dense sparse).isEmpty with _ | _
    · rfl
    · rw [List.isEmpty_iff] at h
      rw [h] at hso
      simp at hso
  have hfetched : id ∈ (getByIds (sparseOnlyIds cfg dense sparse)).map
      (fun h => h.chunk_id) := h4 _ hso
  have hres : (dlookup (payloadsResolved getByIds cfg dense sparse) id).isSome := by
    rw [payloadsResolved_def, hne]
    simp only [Bool.false_eq_true, if_false]
    exact (dlookup_foldl_dset_isSome _ _ id).mpr (Or.inr hfetched)
  have hloop := mem_finalLoop fileStore (payloadsResolved getByIds cfg dense sparse)
    (parentCache fileStore cfg getByIds dense sparse)
    (topCandidates cfg dense sparse) p hp (by rw [hfst]; exact hres)
  rw [hfst] at hloop
  exact hloop

/-- C2: for every pair of dense and sparse arm result lists (with
distinct ids within each arm), the fused score of every candidate is the
sum over the arms containing it of `1/(rrf_k + rank)` with 1-indexed
ranks; an id is fused iff it appears in some arm; the fused list is
sorted descending by score; among equal scores every dense-arm candidate
precedes every sparse-only candidate; and the top candidates are the
first `rerank_top_k` of the sorted list. -/
theorem rrf_fusion_spec (cfg : RetrievalConfig) (dense : List Hit)
    (sparse : List (String × ℚ))
    (hd : (dense.map (fun h => h.chunk_id)).Nodup)
    (hs : (sparse.map Prod.fst).Nodup) :
    (∀ p ∈ fusedSorted cfg.rrf_k dense sparse,
        p.2 = specRRFScore cfg.rrf_k (dense.map (fun h => h.chunk_id))
          (sparse.map Prod.fst) p.1)
    ∧ (∀ id, id ∈ (fusedSorted cfg.rrf_k dense sparse).map Prod.fst ↔
        (id ∈ dense.map (fun h => h.chunk_id) ∨ id ∈ sparse.map Prod.fst))
    ∧ (fusedSorted cfg.rrf_k dense sparse).Sorted (fun a b => b.2 ≤ a.2)
    ∧ (∀ q : ℚ, ∃ dPart sPart,
        (fusedSorted cfg.rrf_k dense sparse).filter (fun p => p.2 == q) =
          dPart ++ sPart
        ∧ (∀ p ∈ dPart, p.1 ∈ dense.map (fun h => h.chunk_id))
        ∧ (∀ p ∈ sPart, p.1 ∉ dense.map (fun h => h.chunk_id)))
    ∧ topCandidates cfg dense sparse =
        (fusedSorted cfg.rrf_k dense sparse).take cfg.rerank_top_k := by
  have hnodup : ((fusedScores cfg.rrf_k dense sparse).map Prod.fst).Nodup := by
    rw [show fusedScores cfg.rrf_k dense sparse =
      (rrfContribs cfg.rrf_k 1 (sparse.map Prod.fst)).foldl (fun m p => dadd m p.1 p.2)
        ((rrfContribs cfg.rrf_k 1 (dense.map (fun h => h.chunk_id))).foldl
          (fun m p => dadd m p.1 p.2) []) from rfl]
    exact nodup_keys_foldl_dadd _ _ (nodup_keys_foldl_dadd _ _ (by simp))
  refine ⟨?_, ?_, ?_, ?_, rfl⟩
  · intro p hp
    rw [fusedSorted_def] at hp
    have hmem : p ∈ fusedScores cfg.rrf_k dense sparse :=
      (mem_sortDescBy (fun p => p.2) _ p).mp hp
    have hlk : dlookup (fusedScores cfg.rrf_k dense sparse) p.1 = some p.2 :=
      (mem_iff_dlookup _ p.1 p.2 hnodup).mp (by simpa using hmem)
    rw [dlookup_fusedScores cfg.rrf_k dense sparse hd hs p.1] at hlk
    by_cases hc : p.1 ∈ dense.map (fun h => h.chunk_id) ∨ p.1 ∈ sparse.map Prod.fst
    · rw [if_pos hc] at hlk
      exact (Option.some.inj hlk).symm
    · rw [if_neg hc] at hlk
      exact absurd hlk (by simp)
  · intro id
    have hperm := (sortDescBy_perm (fun p => p.2)
      (fusedScores cfg.rrf_k dense sparse)).map Prod.fst
    rw [fusedSorted_def, hperm.mem_iff, ← dlookup_isSome_iff_mem_keys,
      dlookup_fusedScores cfg.rrf_k dense sparse hd hs id]
    by_cases hmem : id ∈ dense.map (fun h => h.chunk_id) ∨ id ∈ sparse.map Prod.fst
    · rw [if_pos hmem]
      exact iff_of_true rfl hmem
    · rw [if_neg hmem]
      exact iff_of_false (by simp) hmem
  · rw [fusedSorted_def]
    exact sorted_sortDescBy _ _
  · intro q
    have hstab := filter_sortDescBy (fun p => p.2) (fusedScores cfg.rrf_k dense sparse) q
    have hfused : fusedScores cfg.rrf_k dense sparse =
        (rrfContribs cfg.rrf_k 1 (sparse.map Prod.fst)).foldl (fun m p => dadd m p.1 p.2)
          ((rrfContribs cfg.rrf_k 1 (dense.map (fun h => h.chunk_id))).foldl
            (fun m p => dadd m p.1 p.2) []) := rfl
    rcases keys_foldl_dadd_exists (rrfContribs cfg.rrf_k 1 (sparse.map Prod.fst))
      ((rrfContribs cfg.rrf_k 1 (dense.map (fun h => h.chunk_id))).foldl
        (fun m p => dadd m p.1 p.2) []) with ⟨t, ht, hdisj⟩
    rw [keys_afterDense cfg.rrf_k dense hd] at ht
    have htkeys : (fusedScores cfg.rrf_k dense sparse).map Prod.fst =
        dense.map (fun h => h.chunk_id) ++ t := by
      rw [hfused]
      exact ht
    have hdisj' : ∀ x ∈ t, x ∉ dense.map (fun h => h.chunk_id) := by
      intro x hx
      have := hdisj x hx
      rw [keys_afterDense cfg.rrf_k dense hd] at this
      exact this
    set n := (dense.map (fun h => h.chunk_id)).length with hn
    set F := fusedScores cfg.rrf_k dense sparse with hF
    have hAB : F.take n ++ F.drop n = F := List.take_append_drop n F
    have hmapA : (F.take n).map Prod.fst = dense.map (fun h => h.chunk_id) := by
      rw [List.map_take, htkeys, hn, List.take_left]
    have hmapB : (F.drop n).map Prod.fst = t := by
      rw [List.map_drop, htkeys, hn, List.drop_left]
    refine ⟨(F.take n).filter (fun p => p.2 == q), (F.drop n).filter (fun p => p.2 == q),
      ?_, ?_, ?_⟩
    · rw [fusedSorted_def, ← hF, hstab, ← List.filter_append, hAB]
    · intro p hp
      have hpA : p ∈ F.take n := List.mem_of_mem_filter hp
      have := List.mem_map_of_mem Prod.fst hpA
      rw [hmapA] at this
      exact this
    · intro p hp
      have hpB : p ∈ F.drop n := List.mem_of_mem_filter hp
      have := List.mem_map_of_mem Prod.fst hpB
      rw [hmapB] at this
      exact hdisj' p.1 this

theorem fusion_no_drop_witness :
    "s1" ∈ wSparse.map Prod.fst
    ∧ "s1" ∉ (([] : List Hit).map (fun h => h.chunk_id))
    ∧ "s1" ∈ (topCandidates wCfg [] wSparse).map Prod.fst
    ∧ ("s1" ∈ sparseOnlyIds wCfg [] wSparse
        ∧ "s1" ∈ (finalResults none wGetByIds wCfg [] wSparse).map
            (fun c => c.chunk_id)) :=
  ⟨by decide, by decide, by decide,
    fusion_no_drop none wGetByIds wCfg [] wSparse "s1" (by decide) (by decide)
      (by decide)
      (by
        intro ids h
        simpa [wGetByIds] using h)⟩

theorem rrf_fusion_spec_witness :
    (([⟨"d1", wPayload⟩] : List Hit).map (fun h => h.chunk_id)).Nodup
    ∧ (wSparse.map Prod.fst).Nodup
    ∧ ((∀ p ∈ fusedSorted wCfg.rrf_k [⟨"d1", wPayload⟩] wSparse,
        p.2 = specRRFScore wCfg.rrf_k (([⟨"d1", wPayload⟩] : List Hit).map (fun h => h.chunk_id))
          (wSparse.map Prod.fst) p.1)
      ∧ (∀ id, id ∈ (fusedSorted wCfg.rrf_k [⟨"d1", wPayload⟩] wSparse).map Prod.fst ↔
          (id ∈ (([⟨"d1", wPayload⟩] : List Hit).map (fun h => h.chunk_id)) ∨
            id ∈ wSparse.map Prod.fst))
      ∧ (fusedSorted wCfg.rrf_k [⟨"d1", wPayload⟩] wSparse).Sorted (fun a b => b.2 ≤ a.2)
      ∧ (∀ q : ℚ, ∃ dPart sPart,
          (fusedSorted wCfg.rrf_k [⟨"d1", wPayload⟩] wSparse).filter (fun p => p.2 == q) =
            dPart ++ sPart
          ∧ (∀ p ∈ dPart, p.1 ∈ (([⟨"d1", wPayload⟩] : List Hit).map (fun h => h.chunk_id)))
          ∧ (∀ p ∈ sPart, p.1 ∉ (([⟨"d1", wPayload⟩] : List Hit).map (fun h => h.chunk_id))))
      ∧ topCandidates wCfg [⟨"d1", wPayload⟩] wSparse =
          (fusedSorted wCfg.rrf_k [⟨"d1", wPayload⟩] wSparse).take wCfg.rerank_top_k) :=
  ⟨by decide, by decide,
    rrf_fusion_spec wCfg [⟨"d1", wPayload⟩] wSparse (by decide) (by decide)⟩

/-! ### Lemmas about context assembly -/

theorem dlookup_loadParentChunks (store : String → String → Option ParentChunkQ)
    (did : String) (pids : List String) (pid : String) :
    dlookup (loadParentChunks store did pids) pid =
      if pid ∈ pids then store did pid else none := by
  induction pids with
  | nil => simp [loadParentChunks, dlookup_nil]
  | cons q rest ih =>
    have hstep : loadParentChunks store did (q :: rest) =
        match store did q with
        | some pc => (q, pc) :: loadParentChunks store did rest
        | none => loadParentChunks store did rest := by
      rcases hq : store did q with _ | pc <;> simp [loadParentChunks, hq]
    rcases hq : store did q with _ | pc
    · rw [hstep]
      simp only [hq]
      rw [ih]
      by_cases hpq : pid = q
      · subst hpq
        by_cases hmem : pid ∈ rest
        · simp [hmem]
        · simp [hmem, hq]
      · simp [List.mem_cons, hpq]
    · rw [hstep]
      simp only [hq]
      rw [dlookup_cons]
      by_cases hqp : q = pid
      · subst hqp
        simp [hq]
      · rw [if_neg hqp, ih]
        have hpq : ¬ pid = q := fun hh => hqp hh.symm
        simp [List.mem_cons, hpq]

theorem dlookup_map_assoc {β γ : Type} (l : List (String × β)) (f : String → β → γ)
    (k : String) :
    dlookup (l.map (fun p => (p.1, f p.1 p.2))) k = (dlookup l k).map (f k) := by
  induction l with
  | nil => simp [dlookup_nil]
  | cons p rest ih =>
    obtain ⟨k₀, v₀⟩ := p
    by_cases h : k₀ = k
    · subst h
      simp [dlookup_cons]
    · simp [dlookup_cons, h, ih]

theorem dtpStep_preserves (d : List (String × List String)) (r : RRes)
    (did pid : String) (h : pid ∈ (dlookup d did).getD []) :
    pid ∈ (dlookup (dtpStep d r) did).getD [] := by
  rw [dtpStep]
  rcases hl : dlookup d r.metadata.doc_id with _ | pids
  · rw [dlookup_dset]
    by_cases hdid : did = r.metadata.doc_id
    · subst hdid
      rw [hl] at h
      simp at h
    · rw [if_neg hdid]
      exact h
  · rw [dlookup_dset]
    by_cases hdid : did = r.metadata.doc_id
    · subst hdid
      rw [hl] at h
      simp only [Option.getD_some] at h
      simp only [if_pos rfl, Option.getD_some]
      by_cases hmem : r.metadata.parent_id ∈ pids
      · simpa [hmem] using h
      · simp only [hmem, if_neg]
        exact List.mem_append_left _ h
    · rw [if_neg hdid]
      exact h

theorem dtpStep_adds (d : List (String × List String)) (r : RRes) :
    r.metadata.parent_id ∈ (dlookup (dtpStep d r) r.metadata.doc_id).getD [] := by
  rw [dtpStep]
  rcases hl : dlookup d r.metadata.doc_id with _ | pids
  · rw [dlookup_dset, if_pos rfl]
    simp
  · rw [dlookup_dset, if_pos rfl]
    by_cases hmem : r.metadata.parent_id ∈ pids
    · simp [hmem]
    · simp [hmem]

theorem foldl_dtpStep_preserves (l : List RRes) (d : List (String × List String))
    (did pid : String) (h : pid ∈ (dlookup d did).getD []) :
    pid ∈ (dlookup (l.foldl dtpStep d) did).getD [] := by
  induction l generalizing d with
  | nil => exact h
  | cons q rest ih =>
    simp only [List.foldl_cons]
    exact ih _ (dtpStep_preserves d q did pid h)

theorem mem_docsToParents (rrs : List RRes) (r : RRes) (hr : r ∈ rrs) :
    r.metadata.parent_id ∈
      (dlookup (docsToParents rrs) r.metadata.doc_id).getD [] := by
  rw [docsToParents]
  have hgen : ∀ (l : List RRes) (d : List (String × List String)), r ∈ l →
      r.metadata.parent_id ∈ (dlookup (l.foldl dtpStep d) r.metadata.doc_id).getD [] := by
    intro l
    induction l with
    | nil =>
      intro d h
      exact absurd h (List.not_mem_nil r)
    | cons q rest ih =>
      intro d h
      rcases List.mem_cons.mp h with rfl | h'
      · simp only [List.foldl_cons]
        exact foldl_dtpStep_preserves rest _ _ _ (dtpStep_adds d r)
      · simp only [List.foldl_cons]
        exact ih _ h'
  exact hgen rrs [] hr

/-- The cached text agrees with the store for every pair occurring in the
candidate list. -/
theorem ctxCacheText_eq_storeText (store : String → String → Option ParentChunkQ)
    (rrs : List RRes) (r : RRes) (hr : r ∈ rrs) :
    ctxCacheText store rrs r.metadata.doc_id r.metadata.parent_id =
      storeText store r.metadata.doc_id r.metadata.parent_id := by
  have hmem := mem_docsToParents rrs r hr
  rcases hl : dlookup (docsToParents rrs) r.metadata.doc_id with _ | pids
  · rw [hl] at hmem
    simp at hmem
  · rw [hl] at hmem
    simp only [Option.getD_some] at hmem
    rw [ctxCacheText, ctxParentCache, dlookup_map_assoc, hl]
    show (match dlookup (loadParentChunks store r.metadata.doc_id pids)
        r.metadata.parent_id with
      | some pc => pc.text
      | none => "") = storeText store r.metadata.doc_id r.metadata.parent_id
    rw [dlookup_loadParentChunks, if_pos hmem]
    rfl

/-- The walk only reads `textOf` at pairs of its input list. -/
theorem ctxWalk_congr (t1 t2 : String → String → String) (seen : List String)
    (l : List RRes)
    (h : ∀ r ∈ l, t1 r.metadata.doc_id r.metadata.parent_id =
      t2 r.metadata.doc_id r.metadata.parent_id) :
    ctxWalk t1 seen l = ctxWalk t2 seen l := by
  induction l generalizing seen with
  | nil => rfl
  | cons r rest ih =>
    have hr := h r (List.mem_cons_self r rest)
    have hrest : ∀ x ∈ rest, t1 x.metadata.doc_id x.metadata.parent_id =
        t2 x.metadata.doc_id x.metadata.parent_id :=
      fun x hx => h x (List.mem_cons_of_mem r hx)
    by_cases hseen : r.metadata.parent_id ∈ seen
    · simp only [ctxWalk, if_pos hseen]
      exact ih seen hrest
    · simp only [ctxWalk, if_neg hseen, hr]
      by_cases ht : t2 r.metadata.doc_id r.metadata.parent_id ≠ ""
      · simp only [if_pos ht]
        rw [ih _ hrest]
        congr 1
        rw [mkContext, mkContext, hr]
      · simp only [if_neg ht]
        exact ih seen hrest

theorem ctxWalk_mem_not_seen (t : String → String → String) (seen : List String)
    (l : List RRes) :
    ∀ c ∈ ctxWalk t seen l, c.metadata.parent_id ∉ seen := by
  induction l generalizing seen with
  | nil => intro c hc; simp [ctxWalk] at hc
  | cons r rest ih =>
    intro c hc
    by_cases hseen : r.metadata.parent_id ∈ seen
    · rw [ctxWalk, if_pos hseen] at hc
      exact ih seen c hc
    · rw [ctxWalk, if_neg hseen] at hc
      by_cases ht : t r.metadata.doc_id r.metadata.parent_id ≠ ""
      · rw [if_pos ht] at hc
        rcases List.mem_cons.mp hc with rfl | hc'
        · exact hseen
        · have := ih (seen ++ [r.metadata.parent_id]) c hc'
          intro hmem
          exact this (List.mem_append_left _ hmem)
      · rw [if_neg ht] at hc
        exact ih seen c hc

theorem ctxWalk_parents_nodup (t : String → String → String) (seen : List String)
    (l : List RRes) :
    ((ctxWalk t seen l).map (fun c => c.metadata.parent_id)).Nodup := by
  induction l generalizing seen with
  | nil => simp [ctxWalk]
  | cons r rest ih =>
    by_cases hseen : r.metadata.parent_id ∈ seen
    · rw [ctxWalk, if_pos hseen]
      exact ih seen
    · rw [ctxWalk, if_neg hseen]
      by_cases ht : t r.metadata.doc_id r.metadata.parent_id ≠ ""
      · rw [if_pos ht]
        simp only [List.map_cons, List.nodup_cons]
        constructor
        · intro hmem
          rcases List.mem_map.mp hmem with ⟨c, hc, hcp⟩
          have := ctxWalk_mem_not_seen t (seen ++ [r.metadata.parent_id]) rest c hc
          apply this
          rw [mkContext] at hcp
          simp only at hcp
          rw [hcp]
          exact List.mem_append_right _ (List.mem_singleton.mpr rfl)
        · exact ih _
      · rw [if_neg ht]
        exact ih seen

theorem ctxWalk_sublist (t : String → String → String) (seen : List String)
    (l : List RRes) :
    ∃ sel : List RRes, sel.Sublist l ∧ ctxWalk t seen l = sel.map (mkContext t) ∧
      ∀ r ∈ sel, t r.metadata.doc_id r.metadata.parent_id ≠ "" := by
  induction l generalizing seen with
  | nil => exact ⟨[], by simp [ctxWalk]⟩
  | cons r rest ih =>
    by_cases hseen : r.metadata.parent_id ∈ seen
    · rcases ih seen with ⟨sel, hsub, heq, hres⟩
      exact ⟨sel, hsub.cons r, by rw [ctxWalk, if_pos hseen]; exact heq, hres⟩
    · by_cases ht : t r.metadata.doc_id r.metadata.parent_id ≠ ""
      · rcases ih (seen ++ [r.metadata.parent_id]) with ⟨sel, hsub, heq, hres⟩
        refine ⟨r :: sel, hsub.cons₂ r, ?_, ?_⟩
        · rw [ctxWalk, if_neg hseen, if_pos ht, heq]
          rfl
        · intro x hx
          rcases List.mem_cons.mp hx with rfl | hx'
          · exact ht
          · exact hres x hx'
      · rcases ih seen with ⟨sel, hsub, heq, hres⟩
        exact ⟨sel, hsub.cons r, by rw [ctxWalk, if_neg hseen, if_neg ht]; exact heq, hres⟩

theorem ctxWalk_complete (t : String → String → String) (seen : List String)
    (l : List RRes) :
    ∀ r ∈ l, t r.metadata.doc_id r.metadata.parent_id ≠ "" →
      r.metadata.parent_id ∉ seen →
      r.metadata.parent_id ∈ (ctxWalk t seen l).map (fun c => c.metadata.parent_id) := by
  induction l generalizing seen with
  | nil => intro r hr; exact absurd hr (List.not_mem_nil r)
  | cons q rest ih =>
    intro r hr hres hns
    by_cases hseen : q.metadata.parent_id ∈ seen
    · rw [ctxWalk, if_pos hseen]
      rcases List.mem_cons.mp hr with rfl | hr'
      · exact absurd hseen hns
      · exact ih seen r hr' hres hns
    · by_cases ht : t q.metadata.doc_id q.metadata.parent_id ≠ ""
      · rw [ctxWalk, if_neg hseen, if_pos ht]
        simp only [List.map_cons, mkContext, List.mem_cons]
        rcases List.mem_cons.mp hr with rfl | hr'
        · exact Or.inl rfl
        · by_cases hpq : r.metadata.parent_id = q.metadata.parent_id
          · exact Or.inl hpq
          · refine Or.inr (ih _ r hr' hres ?_)
            intro hmem
            rcases List.mem_append.mp hmem with hm | hm
            · exact hns hm
            · exact hpq (List.mem_singleton.mp hm)
      · rw [ctxWalk, if_neg hseen, if_neg ht]
        rcases List.mem_cons.mp hr with rfl | hr'
        · exact absurd hres ht
        · exact ih seen r hr' hres hns

theorem ctxWalk_first_wins (t : String → String → String) (seen : List String)
    (l : List RRes) :
    ∀ c ∈ ctxWalk t seen l, ∃ pre r post, l = pre ++ r :: post ∧
      c = mkContext t r ∧ t r.metadata.doc_id r.metadata.parent_id ≠ "" ∧
      ∀ r' ∈ pre, r'.metadata.parent_id = c.metadata.parent_id →
        (t r'.metadata.doc_id r'.metadata.parent_id = "" ∨
          r'.metadata.parent_id ∈ seen) := by
  induction l generalizing seen with
  | nil => intro c hc; simp [ctxWalk] at hc
  | cons q rest ih =>
    intro c hc
    by_cases hseen : q.metadata.parent_id ∈ seen
    · rw [ctxWalk, if_pos hseen] at hc
      rcases ih seen c hc with ⟨pre, r, post, hsplit, hmk, hres, hguard⟩
      refine ⟨q :: pre, r, post, by rw [hsplit]; rfl, hmk, hres, ?_⟩
      intro r' hr' hpid
      rcases List.mem_cons.mp hr' with rfl | hr''
      · exact Or.inr (hpid ▸ hseen)
      · exact hguard r' hr'' hpid
    · by_cases ht : t q.metadata.doc_id q.metadata.parent_id ≠ ""
      · rw [ctxWalk, if_neg hseen, if_pos ht] at hc
        rcases List.mem_cons.mp hc with rfl | hc'
        · exact ⟨[], q, rest, rfl, rfl, ht, by intro r' hr'; exact absurd hr' (List.not_mem_nil r')⟩
        · rcases ih (seen ++ [q.metadata.parent_id]) c hc' with
            ⟨pre, r, post, hsplit, hmk, hres, hguard⟩
          have hcnot := ctxWalk_mem_not_seen t (seen ++ [q.metadata.parent_id]) rest c hc'
          have hcq : c.metadata.parent_id ≠ q.metadata.parent_id := by
            intro hh
            exact hcnot (List.mem_append_right _ (List.mem_singleton.mpr hh))
          refine ⟨q :: pre, r, post, by rw [hsplit]; rfl, hmk, hres, ?_⟩
          intro r' hr' hpid
          rcases List.mem_cons.mp hr' with rfl | hr''
          · exact absurd hpid (fun hh => hcq hh.symm)
          · rcases hguard r' hr'' hpid with hg | hg
            · exact Or.inl hg
            · rcases List.mem_append.mp hg with hm | hm
              · exact Or.inr hm
              · exact absurd (hpid ▸ List.mem_singleton.mp hm) (by
                  intro hh
                  exact hcq hh)
      · rw [ctxWalk, if_neg hseen, if_neg ht] at hc
        rcases ih seen c hc with ⟨pre, r, post, hsplit, hmk, hres, hguard⟩
        refine ⟨q :: pre, r, post, by rw [hsplit]; rfl, hmk, hres, ?_⟩
        intro r' hr' hpid
        rcases List.mem_cons.mp hr' with rfl | hr''
        · simp only [ne_eq, not_not] at ht
          exact Or.inl ht
        · exact hguard r' hr'' hpid

/-- C6: the ContextAssembler emits exactly one entry per distinct
`parent_id` — from the first (highest-ranked) candidate with that parent
whose parent text resolves; earlier failures and later duplicates are
skipped without aborting; emitted entries preserve rank order (they are
the image of a sublist of the candidates). -/
theorem context_assembler_spec (store : String → String → Option ParentChunkQ)
    (rrs : List RRes) :
    ((contextBuild store rrs).map (fun c => c.metadata.parent_id)).Nodup
    ∧ (∃ sel : List RRes, sel.Sublist rrs ∧
        contextBuild store rrs = sel.map (mkContext (storeText store)))
    ∧ (∀ r ∈ rrs, storeText store r.metadata.doc_id r.metadata.parent_id ≠ "" →
        r.metadata.parent_id ∈
          (contextBuild store rrs).map (fun c => c.metadata.parent_id))
    ∧ (∀ c ∈ contextBuild store rrs, ∃ pre r post, rrs = pre ++ r :: post ∧
        c = mkContext (storeText store) r ∧
        storeText store r.metadata.doc_id r.metadata.parent_id ≠ "" ∧
        ∀ r' ∈ pre, r'.metadata.parent_id = c.metadata.parent_id →
          storeText store r'.metadata.doc_id r'.metadata.parent_id = "") := by
  have hEq : contextBuild store rrs = ctxWalk (storeText store) [] rrs := by
    rw [contextBuild]
    exact ctxWalk_congr _ _ [] rrs (fun r hr => ctxCacheText_eq_storeText store rrs r hr)
  refine ⟨?_, ?_, ?_, ?_⟩
  · rw [hEq]
    exact ctxWalk_parents_nodup _ _ _
  · rw [hEq]
    rcases ctxWalk_sublist (storeText store) [] rrs with ⟨sel, hsub, heq, _⟩
    exact ⟨sel, hsub, heq⟩
  · intro r hr hres
    rw [hEq]
    exact ctxWalk_complete _ [] rrs r hr hres (by simp)
  · intro c hc
    rw [hEq] at hc
    rcases ctxWalk_first_wins _ [] rrs c hc with ⟨pre, r, post, hsplit, hmk, hres, hguard⟩
    refine ⟨pre, r, post, hsplit, hmk, hres, ?_⟩
    intro r' hr' hpid
    rcases hguard r' hr' hpid with hg | hg
    · exact hg
    · exact absurd hg (List.not_mem_nil _)

theorem context_assembler_spec_witness :
    (contextBuild wStore wRRs).map (fun c => c.child_chunk_id) = ["c1"]
    ∧ (((contextBuild wStore wRRs).map (fun c => c.metadata.parent_id)).Nodup
      ∧ (∃ sel : List RRes, sel.Sublist wRRs ∧
          contextBuild wStore wRRs = sel.map (mkContext (storeText wStore)))
      ∧ (∀ r ∈ wRRs, storeText wStore r.metadata.doc_id r.metadata.parent_id ≠ "" →
          r.metadata.parent_id ∈
            (contextBuild wStore wRRs).map (fun c => c.metadata.parent_id))
      ∧ (∀ c ∈ contextBuild wStore wRRs, ∃ pre r post, wRRs = pre ++ r :: post ∧
          c = mkContext (storeText wStore) r ∧
          storeText wStore r.metadata.doc_id r.metadata.parent_id ≠ "" ∧
          ∀ r' ∈ pre, r'.metadata.parent_id = c.metadata.parent_id →
            storeText wStore r'.metadata.doc_id r'.metadata.parent_id = "")) :=
  ⟨by decide, context_assembler_spec wStore wRRs⟩

/-- C7 (code bug): `HybridSearcher.search` emits candidates carrying
`metadata` and resolved `text` keys but no `payload` key, while
`Reranker.rerank` reads `c["payload"]`: on every non-empty candidate
list produced by the searcher the reranker raises `KeyError` instead of
scoring the resolved text.  The empty-list guard alone behaves as
specified. -/
theorem reranker_payload_keyerror :
    finalResults none wGetByIds wCfg [] wSparse ≠ []
    ∧ (∀ c ∈ finalResults none wGetByIds wCfg [] wSparse, c.payload = none)
    ∧ rerank wScorer wCfg.final_top_k "q" (finalResults none wGetByIds wCfg [] wSparse) =
        Except.error "KeyError: payload"
    ∧ rerank wScorer wCfg.final_top_k "q" [] = Except.ok [] := by
  refine ⟨by decide, by decide, by rfl, by rfl⟩

/-- C8 as stated is false: the analyser overwrites a caller-supplied
non-null `page_range` with the value extracted from the question. -/
theorem query_analyser_counterexample :
    (analyse "what is on page 5"
      (some { page_range := some [1, 2], section_title := none, block_type := none })
      none).page_range = some [5, 5]
    ∧ (analyse "what is on page 5"
      (some { page_range := some [1, 2], section_title := none, block_type := none })
      none).page_range ≠ some [1, 2] := by
  refine ⟨by decide, by decide⟩

/-- C8 (amended): extracted values take precedence — each extracted value
overwrites the corresponding caller-supplied field, and a caller-supplied
field survives exactly when nothing is extracted for it. -/
theorem query_analyser_precedence (question : String) (f : QueryFilters)
    (sectionTitles : Option (List String)) :
    ((analyse question (some f) sectionTitles).page_range =
      (match extractPageRange question with
       | some pr => some pr
       | none => f.page_range))
    ∧ ((analyse question (some f) sectionTitles).section_title =
      (match extractSectionTitle question sectionTitles with
       | some t => some t
       | none => f.section_title))
    ∧ ((analyse question (some f) sectionTitles).block_type =
      if tableKeyword question then some "table" else f.block_type) := by
  rw [analyse]
  rcases hpr : extractPageRange question with _ | pr <;>
    rcases hst : extractSectionTitle question sectionTitles with _ | t <;>
    by_cases htk : tableKeyword question <;>
    simp [hpr, hst, htk]

/-- C3: whenever the fused candidate list or the assembled context list
is empty, the orchestrator returns the terminal not-found response —
fixed answer string, empty citations, `final_count = 0` — and the
generation collaborator is never invoked (zero `generate` calls). -/
theorem not_found_short_circuit (modelName : String) (streamMode : Bool)
    (searchResults : List Cand) (searchStats : StatsDict)
    (rerankFn : List Cand → List Cand)
    (buildContext : List Cand → List RetrievedContext)
    (buildMessages : String → List RetrievedContext → List (String × String))
    (generateSync : List (String × String) → String)
    (generateStream : List (String × String) → List String)
    (question : String)
    (h : searchResults = [] ∨ buildContext (rerankFn searchResults) = []) :
    (runPipeline modelName streamMode searchResults searchStats rerankFn buildContext
      buildMessages generateSync generateStream question).2 = 0
    ∧ ∃ resp, (runPipeline modelName streamMode searchResults searchStats rerankFn
        buildContext buildMessages generateSync generateStream question).1 =
          RunResult.sync resp
      ∧ resp.answer = "not found in document"
      ∧ resp.citations = []
      ∧ resp.retrieval_stats.final_count = 0 := by
  by_cases hempty : searchResults = []
  · subst hempty
    refine ⟨by rw [runPipeline]; rfl, notFoundResponse question modelName searchStats,
      by rw [runPipeline]; rfl, rfl, rfl, rfl⟩
  · have hctx : buildContext (rerankFn searchResults) = [] := by
      rcases h with h | h
      · exact absurd h hempty
      · exact h
    have hne : searchResults.isEmpty = false := by
      rcases searchResults with _ | ⟨c, cs⟩
      · exact absurd rfl hempty
      · rfl
    refine ⟨?_, notFoundResponse question modelName
      { searchStats with
        reranked_from := some searchResults.length
        final_count := some (rerankFn searchResults).length }, ?_, rfl, rfl, rfl⟩
    · rw [runPipeline]
      simp only [hne, Bool.false_eq_true, if_false, hctx, List.isEmpty_nil, if_true]
    · rw [runPipeline]
      simp only [hne, Bool.false_eq_true, if_false, hctx, List.isEmpty_nil, if_true]

theorem not_found_short_circuit_witness :
    (([] : List Cand) = [] ∨
      (fun _ : List Cand => ([] : List RetrievedContext)) ((fun c => c) ([] : List Cand)) = [])
    ∧ ((runPipeline "m" false [] {} (fun c => c) (fun _ => [])
        (fun _ _ => []) (fun _ => "") (fun _ => []) "q").2 = 0
      ∧ ∃ resp, (runPipeline "m" false [] {} (fun c => c) (fun _ => [])
          (fun _ _ => []) (fun _ => "") (fun _ => []) "q").1 = RunResult.sync resp
        ∧ resp.answer = "not found in document"
        ∧ resp.citations = []
        ∧ resp.retrieval_stats.final_count = 0) :=
  ⟨Or.inl rfl,
    not_found_short_circuit "m" false [] {} (fun c => c) (fun _ => [])
      (fun _ _ => []) (fun _ => "") (fun _ => []) "q" (Or.inl rfl)⟩

/-! ### Lemmas about `_get_token_ranges` -/

theorem getTokenRangesFuel_succ (size overlap total fuel s : Nat) :
    getTokenRangesFuel size overlap total (fuel + 1) s =
      if s < total then
        if total ≤ min (s + size) total then some [(s, min (s + size) total)]
        else (getTokenRangesFuel size overlap total fuel (min (s + size) total - overlap)).map
          (fun rs => (s, min (s + size) total) :: rs)
      else some [] := rfl

theorem getTokenRangesFuel_spec (size overlap total : Nat) (hov : overlap < size) :
    ∀ fuel s, total - s < fuel → s < total →
      ∃ rs, getTokenRangesFuel size overlap total fuel s = some rs
        ∧ rs ≠ []
        ∧ rs.head?.map Prod.fst = some s
        ∧ rs.getLast?.map Prod.snd = some total
        ∧ List.Chain' (fun a b => b.1 = a.2 - overlap) rs
        ∧ ∀ t, s ≤ t → t < total → ∃ pr ∈ rs, pr.1 ≤ t ∧ t < pr.2 := by
  intro fuel
  induction fuel with
  | zero =>
    intro s hfuel hs
    omega
  | succ fuel ih =>
    intro s hfuel hs
    by_cases he : total ≤ min (s + size) total
    · have hmin : min (s + size) total = total :=
        Nat.le_antisymm (Nat.min_le_right _ _) he
      refine ⟨[(s, total)], ?_, by simp, by simp, by simp, ?_, ?_⟩
      · rw [getTokenRangesFuel_succ, if_pos hs, if_pos he, hmin]
      · simp
      · intro t hst ht
        exact ⟨(s, total), by simp, hst, ht⟩
    · have hlt : s + size < total := by
        rcases Nat.le_total (s + size) total with hle | hle
        · rcases Nat.lt_or_ge (s + size) total with h | h
          · exact h
          · have : s + size = total := Nat.le_antisymm hle h
            rw [Nat.min_eq_left hle, this] at he
            omega
        · rw [Nat.min_eq_right hle] at he
          omega
      have hmin : min (s + size) total = s + size := Nat.min_eq_left (le_of_lt hlt)
      have h1 : total - (s + size - overlap) < fuel := by omega
      have h2 : s + size - overlap < total := by omega
      rcases ih (s + size - overlap) h1 h2 with ⟨rs', heq', hne', hhead', hlast', hchain', hcov'⟩
      refine ⟨(s, s + size) :: rs', ?_, by simp, by simp, ?_, ?_, ?_⟩
      · rw [getTokenRangesFuel_succ, if_pos hs, if_neg he, hmin, heq']
        rfl
      · rcases rs' with _ | ⟨b, l⟩
        · exact absurd rfl hne'
        · rw [List.getLast?_cons_cons]
          simpa using hlast'
      · rcases rs' with _ | ⟨b, l⟩
        · exact absurd rfl hne'
        · rw [List.chain'_cons]
          refine ⟨?_, hchain'⟩
          show b.1 = s + size - overlap
          simpa using hhead'
      · intro t hst ht
        by_cases htb : t < s + size
        · exact ⟨(s, s + size), by simp, hst, htb⟩
        · have hs' : s + size - overlap ≤ t := by omega
          rcases hcov' t hs' ht with ⟨pr, hpr, hle1, hle2⟩
          exact ⟨pr, List.mem_cons_of_mem _ hpr, hle1, hle2⟩

theorem getTokenRangesFuel_nonterm (size overlap total : Nat) (h1 : size ≤ overlap)
    (h2 : size < total) : ∀ fuel, getTokenRangesFuel size overlap total fuel 0 = none := by
  intro fuel
  induction fuel with
  | zero => rfl
  | succ fuel ih =>
    rw [getTokenRangesFuel_succ, if_pos (by omega : (0 : Nat) < total)]
    have hmin : min (0 + size) total = size := by
      rw [Nat.zero_add]
      exact Nat.min_eq_left (le_of_lt h2)
    rw [hmin, if_neg (by omega : ¬ total ≤ size)]
    have hz : size - overlap = 0 := Nat.sub_eq_zero_of_le h1
    rw [hz, ih]
    rfl

/-- C10 as stated is false at `total_tokens = 0` (with the default
`512/64` window configuration): the loop terminates but returns an empty
range list, not non-empty ranges. -/
theorem token_window_total_zero_counterexample :
    getTokenRanges 0 512 64 = [] ∧ ¬ getTokenRanges 0 512 64 ≠ [] := by
  have h : getTokenRanges 0 512 64 = [] := by decide
  exact ⟨h, fun hne => hne h⟩

/-- C10 (amended): for `overlap < size` and `total_tokens > 0` the loop
terminates (within `total+1` iterations) and returns non-empty ranges
starting at 0, ending exactly at `total_tokens`, each subsequent range
starting exactly `overlap` tokens before the previous range's end, and
covering every token index; for `overlap ≥ size` and
`total_tokens > size` it never terminates (no amount of fuel yields a
result). -/
theorem token_window_termination (total size overlap : Nat) :
    (overlap < size → 0 < total →
      ∃ rs, getTokenRangesFuel size overlap total (total + 1) 0 = some rs
        ∧ getTokenRanges total size overlap = rs
        ∧ rs ≠ []
        ∧ rs.head?.map Prod.fst = some 0
        ∧ rs.getLast?.map Prod.snd = some total
        ∧ List.Chain' (fun a b => b.1 = a.2 - overlap) rs
        ∧ ∀ t, t < total → ∃ pr ∈ rs, pr.1 ≤ t ∧ t < pr.2)
    ∧ (size ≤ overlap → size < total →
      ∀ fuel, getTokenRangesFuel size overlap total fuel 0 = none) := by
  constructor
  · intro hov htot
    rcases getTokenRangesFuel_spec size overlap total hov (total + 1) 0 (by omega) htot with
      ⟨rs, heq, hne, hhead, hlast, hchain, hcov⟩
    refine ⟨rs, heq, ?_, hne, hhead, hlast, hchain, fun t ht => hcov t (Nat.zero_le t) ht⟩
    rw [getTokenRanges, heq]
    rfl
  · intro h1 h2
    exact getTokenRangesFuel_nonterm size overlap total h1 h2

theorem token_window_termination_witness :
    ((64 : Nat) < 512 ∧ (0 : Nat) < 10 ∧
      ∃ rs, getTokenRangesFuel 512 64 10 (10 + 1) 0 = some rs
        ∧ getTokenRanges 10 512 64 = rs
        ∧ rs ≠ []
        ∧ rs.head?.map Prod.fst = some 0
        ∧ rs.getLast?.map Prod.snd = some 10
        ∧ List.Chain' (fun a b => b.1 = a.2 - 64) rs
        ∧ ∀ t, t < 10 → ∃ pr ∈ rs, pr.1 ≤ t ∧ t < pr.2)
    ∧ ((4 : Nat) ≤ 4 ∧ (4 : Nat) < 10 ∧
      ∀ fuel, getTokenRangesFuel 4 4 10 fuel 0 = none) :=
  ⟨⟨by decide, by decide, (token_window_termination 10 512 64).1 (by decide) (by decide)⟩,
    ⟨by decide, by decide, (token_window_termination 10 4 4).2 (by decide) (by decide)⟩⟩

/-! ### Lemmas about metadata finalization -/

theorem enumFrom_map_snd {α β : Type} (g : α → β) :
    ∀ (n : Nat) (l : List α), (List.enumFrom n l).map (fun ic => g ic.2) = l.map g := by
  intro n l
  induction l generalizing n with
  | nil => rfl
  | cons a as ih => simp [List.enumFrom, ih]

theorem enum_map_snd {α β : Type} (g : α → β) (l : List α) :
    l.enum.map (fun ic => g ic.2) = l.map g :=
  enumFrom_map_snd g 0 l

theorem snd_mem_of_mem_enumFrom {α : Type} :
    ∀ (n : Nat) (l : List α) (p : Nat × α), p ∈ List.enumFrom n l → p.2 ∈ l := by
  intro n l
  induction l generalizing n with
  | nil =>
    intro p hp
    simp [List.enumFrom] at hp
  | cons a as ih =>
    intro p hp
    rcases List.mem_cons.mp (by simpa [List.enumFrom] using hp) with h | h
    · rw [h]
      exact List.mem_cons_self a as
    · exact List.mem_cons_of_mem a (ih (n + 1) p h)

theorem snd_mem_of_mem_enum {α : Type} (l : List α) (p : Nat × α) (h : p ∈ l.enum) :
    p.2 ∈ l :=
  snd_mem_of_mem_enumFrom 0 l p h

/-- Mapping a projection over an enumerate-and-transform pass. -/
theorem enum_map_comp {α α' β : Type} (f : Nat → α → α') (g : α' → β) (g' : α → β)
    (h : ∀ i c, g (f i c) = g' c) (l : List α) :
    ((l.enum.map (fun ic => f ic.1 ic.2)).map g) = l.map g' := by
  rw [List.map_map]
  have hcongr : l.enum.map (g ∘ fun ic => f ic.1 ic.2) =
      l.enum.map (fun ic => g' ic.2) :=
    List.map_congr_left (fun ic _ => h ic.1 ic.2)
  rw [hcongr, enum_map_snd]

/-- A `foldl` keeps any invariant its step keeps. -/
theorem foldl_preserve {σ α : Type} (P : σ → Prop) (f : σ → α → σ)
    (hstep : ∀ s a, P s → P (f s a)) :
    ∀ (l : List α) (s : σ), P s → P (l.foldl f s) := by
  intro l
  induction l with
  | nil => exact fun s h => h
  | cons a as ih => exact fun s h => ih (f s a) (hstep s a h)

theorem withLinks_chunk_id (l : List ChildChunk) (total i : Nat) (c : ChildChunk) :
    (withLinks l total i c).metadata.chunk_id = c.metadata.chunk_id := by
  by_cases h1 : 0 < i <;> by_cases h2 : i < total - 1 <;> simp [withLinks, h1, h2]

theorem withLinks_parent_id (l : List ChildChunk) (total i : Nat) (c : ChildChunk) :
    (withLinks l total i c).metadata.parent_id = c.metadata.parent_id := by
  by_cases h1 : 0 < i <;> by_cases h2 : i < total - 1 <;> simp [withLinks, h1, h2]

theorem withLinks_section_path (l : List ChildChunk) (total i : Nat) (c : ChildChunk) :
    (withLinks l total i c).metadata.section_path = c.metadata.section_path := by
  by_cases h1 : 0 < i <;> by_cases h2 : i < total - 1 <;> simp [withLinks, h1, h2]

theorem withLinks_page_number (l : List ChildChunk) (total i : Nat) (c : ChildChunk) :
    (withLinks l total i c).metadata.page_number = c.metadata.page_number := by
  by_cases h1 : 0 < i <;> by_cases h2 : i < total - 1 <;> simp [withLinks, h1, h2]

theorem withLinks_char_start (l : List ChildChunk) (total i : Nat) (c : ChildChunk) :
    (withLinks l total i c).metadata.char_start = c.metadata.char_start := by
  by_cases h1 : 0 < i <;> by_cases h2 : i < total - 1 <;> simp [withLinks, h1, h2]

theorem withLinks_prev (l : List ChildChunk) (total i : Nat) (c : ChildChunk) :
    (withLinks l total i c).metadata.prev_chunk_id =
      if 0 < i then (l.get? (i - 1)).map (fun x => x.metadata.chunk_id)
      else c.metadata.prev_chunk_id := by
  by_cases h1 : 0 < i <;> by_cases h2 : i < total - 1 <;> simp [withLinks, h1, h2]

theorem withLinks_next (l : List ChildChunk) (total i : Nat) (c : ChildChunk) :
    (withLinks l total i c).metadata.next_chunk_id =
      if i < total - 1 then (l.get? (i + 1)).map (fun x => x.metadata.chunk_id)
      else c.metadata.next_chunk_id := by
  by_cases h1 : 0 < i <;> by_cases h2 : i < total - 1 <;> simp [withLinks, h1, h2]

theorem finalizeChild_chunk_id (sha256 : String → String) (d sf : String) (T : Nat)
    (t : String) (hs : List Nat) (i : Nat) (c : ChildChunk) :
    (finalizeChild sha256 d sf T t hs i c).metadata.chunk_id = authIdOf sha256 d c := rfl

theorem finalizeChild_parent_id (sha256 : String → String) (d sf : String) (T : Nat)
    (t : String) (hs : List Nat) (i : Nat) (c : ChildChunk) :
    (finalizeChild sha256 d sf T t hs i c).metadata.parent_id =
      c.metadata.parent_id := rfl

theorem finalizeChild_section_path (sha256 : String → String) (d sf : String) (T : Nat)
    (t : String) (hs : List Nat) (i : Nat) (c : ChildChunk) :
    (finalizeChild sha256 d sf T t hs i c).metadata.section_path =
      c.metadata.section_path := rfl

theorem finalizeChild_page_number (sha256 : String → String) (d sf : String) (T : Nat)
    (t : String) (hs : List Nat) (i : Nat) (c : ChildChunk) :
    (finalizeChild sha256 d sf T t hs i c).metadata.page_number =
      c.metadata.page_number := rfl

theorem finalizeChild_char_start (sha256 : String → String) (d sf : String) (T : Nat)
    (t : String) (hs : List Nat) (i : Nat) (c : ChildChunk) :
    (finalizeChild sha256 d sf T t hs i c).metadata.char_start =
      c.metadata.char_start := rfl

theorem finalizeChild_prev (sha256 : String → String) (d sf : String) (T : Nat)
    (t : String) (hs : List Nat) (i : Nat) (c : ChildChunk) :
    (finalizeChild sha256 d sf T t hs i c).metadata.prev_chunk_id =
      c.metadata.prev_chunk_id := rfl

theorem finalizeChild_next (sha256 : String → String) (d sf : String) (T : Nat)
    (t : String) (hs : List Nat) (i : Nat) (c : ChildChunk) :
    (finalizeChild sha256 d sf T t hs i c).metadata.next_chunk_id =
      c.metadata.next_chunk_id := rfl

theorem linkPass_map_of_preserved {β : Type} (g : ChildChunk → β)
    (hg : ∀ (l : List ChildChunk) (total i : Nat) (c : ChildChunk),
      g (withLinks l total i c) = g c)
    (l : List ChildChunk) (total : Nat) :
    (linkPass l total).map g = l.map g := by
  rw [linkPass]
  exact enum_map_comp (withLinks l total) g g (fun i c => hg l total i c) l

theorem finalizeChunks_def (sha256 : String → String) (d sf : String)
    (ob : List ParsedBlock) (ps : List ParentChunk) (cs : List ChildChunk) (t : String) :
    finalizeChunks sha256 d sf ob ps cs t =
      (ps.map (fun parent =>
        { parent with child_ids := parent.child_ids.map (authSubst sha256 d cs) }),
       linkPass (cs.enum.map (fun ic =>
        finalizeChild sha256 d sf cs.length t (headingIdx cs) ic.1 ic.2)) cs.length) := rfl

theorem finalize_map_chunk_id (sha256 : String → String) (d sf : String)
    (ob : List ParsedBlock) (ps : List ParentChunk) (cs : List ChildChunk) (t : String) :
    (finalizeChunks sha256 d sf ob ps cs t).2.map (fun c => c.metadata.chunk_id) =
      cs.map (authIdOf sha256 d) := by
  rw [finalizeChunks_def]
  rw [linkPass_map_of_preserved _ withLinks_chunk_id]
  exact enum_map_comp
    (fun i c => finalizeChild sha256 d sf cs.length t (headingIdx cs) i c)
    (fun c => c.metadata.chunk_id) (authIdOf sha256 d)
    (fun i c => finalizeChild_chunk_id sha256 d sf cs.length t (headingIdx cs) i c) cs

theorem finalize_map_parent_id (sha256 : String → String) (d sf : String)
    (ob : List ParsedBlock) (ps : List ParentChunk) (cs : List ChildChunk) (t : String) :
    (finalizeChunks sha256 d sf ob ps cs t).2.map (fun c => c.metadata.parent_id) =
      cs.map (fun c => c.metadata.parent_id) := by
  rw [finalizeChunks_def]
  rw [linkPass_map_of_preserved _ withLinks_parent_id]
  exact enum_map_comp
    (fun i c => finalizeChild sha256 d sf cs.length t (headingIdx cs) i c)
    (fun c => c.metadata.parent_id) (fun c => c.metadata.parent_id)
    (fun i c => finalizeChild_parent_id sha256 d sf cs.length t (headingIdx cs) i c) cs

theorem finalize_map_section_path (sha256 : String → String) (d sf : String)
    (ob : List ParsedBlock) (ps : List ParentChunk) (cs : List ChildChunk) (t : String) :
    (finalizeChunks sha256 d sf ob ps cs t).2.map (fun c => c.metadata.section_path) =
      cs.map (fun c => c.metadata.section_path) := by
  rw [finalizeChunks_def]
  rw [linkPass_map_of_preserved _ withLinks_section_path]
  exact enum_map_comp
    (fun i c => finalizeChild sha256 d sf cs.length t (headingIdx cs) i c)
    (fun c => c.metadata.section_path) (fun c => c.metadata.section_path)
    (fun i c => finalizeChild_section_path sha256 d sf cs.length t (headingIdx cs) i c) cs

theorem finalize_map_page_number (sha256 : String → String) (d sf : String)
    (ob : List ParsedBlock) (ps : List ParentChunk) (cs : List ChildChunk) (t : String) :
    (finalizeChunks sha256 d sf ob ps cs t).2.map (fun c => c.metadata.page_number) =
      cs.map (fun c => c.metadata.page_number) := by
  rw [finalizeChunks_def]
  rw [linkPass_map_of_preserved _ withLinks_page_number]
  exact enum_map_comp
    (fun i c => finalizeChild sha256 d sf cs.length t (headingIdx cs) i c)
    (fun c => c.metadata.page_number) (fun c => c.metadata.page_number)
    (fun i c => finalizeChild_page_number sha256 d sf cs.length t (headingIdx cs) i c) cs

theorem finalize_map_char_start (sha256 : String → String) (d sf : String)
    (ob : List ParsedBlock) (ps : List ParentChunk) (cs : List ChildChunk) (t : String) :
    (finalizeChunks sha256 d sf ob ps cs t).2.map (fun c => c.metadata.char_start) =
      cs.map (fun c => c.metadata.char_start) := by
  rw [finalizeChunks_def]
  rw [linkPass_map_of_preserved _ withLinks_char_start]
  exact enum_map_comp
    (fun i c => finalizeChild sha256 d sf cs.length t (headingIdx cs) i c)
    (fun c => c.metadata.char_start) (fun c => c.metadata.char_start)
    (fun i c => finalizeChild_char_start sha256 d sf cs.length t (headingIdx cs) i c) cs

theorem finalize_parents_map_parent_id (sha256 : String → String) (d sf : String)
    (ob : List ParsedBlock) (ps : List ParentChunk) (cs : List ChildChunk) (t : String) :
    (finalizeChunks sha256 d sf ob ps cs t).1.map (fun p => p.parent_id) =
      ps.map (fun p => p.parent_id) := by
  rw [finalizeChunks_def, List.map_map]
  exact List.map_congr_left (fun p _ => rfl)

theorem finalize_parents_map_section_path (sha256 : String → String) (d sf : String)
    (ob : List ParsedBlock) (ps : List ParentChunk) (cs : List ChildChunk) (t : String) :
    (finalizeChunks sha256 d sf ob ps cs t).1.map (fun p => p.section_path) =
      ps.map (fun p => p.section_path) := by
  rw [finalizeChunks_def, List.map_map]
  exact List.map_congr_left (fun p _ => rfl)

theorem finalize_parents_map_child_ids (sha256 : String → String) (d sf : String)
    (ob : List ParsedBlock) (ps : List ParentChunk) (cs : List ChildChunk) (t : String) :
    (finalizeChunks sha256 d sf ob ps cs t).1.map (fun p => p.child_ids) =
      ps.map (fun p => p.child_ids.map (authSubst sha256 d cs)) := by
  rw [finalizeChunks_def, List.map_map]
  exact List.map_congr_left (fun p _ => rfl)

/-- After finalization, every child's `chunk_id` is the hash of its own
`(doc_id, page_number, char_start)`. -/
theorem finalize_chunk_id_self (sha256 : String → String) (d sf : String)
    (ob : List ParsedBlock) (ps : List ParentChunk) (cs : List ChildChunk) (t : String) :
    ∀ c ∈ (finalizeChunks sha256 d sf ob ps cs t).2,
      c.metadata.chunk_id =
        sha256 (d ++ toString c.metadata.page_number ++
          toString c.metadata.char_start) := by
  intro c hc
  rw [finalizeChunks_def] at hc
  rw [linkPass] at hc
  rcases List.mem_map.mp hc with ⟨ic, hicmem, rfl⟩
  rw [withLinks_chunk_id, withLinks_page_number, withLinks_char_start]
  have hic2 := snd_mem_of_mem_enum _ ic hicmem
  rcases List.mem_map.mp hic2 with ⟨jc, _, hjc⟩
  rw [← hjc, finalizeChild_chunk_id, finalizeChild_page_number, finalizeChild_char_start]
  rfl

theorem processTextSegment_parents_good (sha256 : String → String)
    (encode : String → List Nat) (decode : List Nat → String) (cfg : ChunkingConfig)
    (embModel : String) (docId : String) (sp : Option String) (text : String)
    (si : Nat) (blocks : List ParsedBlock) (off : Nat) :
    ∀ p ∈ (processTextSegment sha256 encode decode cfg embModel docId sp text si
      blocks off).1, GoodParent sha256 docId p := by
  rw [processTextSegment]
  refine foldl_preserve
    (fun acc : List ParentChunk × List ChildChunk × Nat =>
      ∀ p ∈ acc.1, GoodParent sha256 docId p) _ ?_ _ _ (by intro p hp; simp at hp)
  intro s a hP p hp
  rcases List.mem_append.mp hp with hmem | hmem
  · exact hP p hmem
  · rcases List.mem_singleton.mp hmem with rfl
    exact ⟨off + (decode ((encode text).take a.1)).length, rfl⟩

theorem processAtomicBlock_parents_good (sha256 : String → String)
    (encode : String → List Nat) (embModel : String) (docId : String)
    (sp : Option String) (b : ParsedBlock) (si off : Nat) :
    ∀ p ∈ (processAtomicBlock sha256 encode embModel docId sp b si off).1,
      GoodParent sha256 docId p := by
  intro p hp
  rcases List.mem_singleton.mp hp with rfl
  exact ⟨off, rfl⟩

theorem flushBuffer_parents_good (sha256 : String → String)
    (encode : String → List Nat) (decode : List Nat → String) (cfg : ChunkingConfig)
    (embModel : String) (docId : String) (sp : Option String) (st : ChunkState)
    (bufText : String) (bufBlocks : List ParsedBlock) (bufStart : Nat)
    (h : ∀ p ∈ st.parents, GoodParent sha256 docId p) :
    ∀ p ∈ (flushBuffer sha256 encode decode cfg embModel docId sp st bufText
      bufBlocks bufStart).parents, GoodParent sha256 docId p := by
  intro p hp
  rcases List.mem_append.mp hp with hmem | hmem
  · exact h p hmem
  · exact processTextSegment_parents_good sha256 encode decode cfg embModel docId sp
      bufText st.idx bufBlocks bufStart p hmem

theorem chunkFin_parents_good (sha256 : String → String)
    (encode : String → List Nat) (decode : List Nat → String) (cfg : ChunkingConfig)
    (embModel : String) (docId : String) (sp : Option String)
    (fin : ChunkState × String × List ParsedBlock × Nat)
    (h : ∀ p ∈ fin.1.parents, GoodParent sha256 docId p) :
    ∀ p ∈ (if fin.2.1 ≠ "" then
        flushBuffer sha256 encode decode cfg embModel docId sp fin.1 fin.2.1
          fin.2.2.1 fin.2.2.2
      else fin.1).parents, GoodParent sha256 docId p := by
  by_cases hfin : fin.2.1 ≠ ""
  · rw [if_pos hfin]
    exact flushBuffer_parents_good sha256 encode decode cfg embModel docId sp
      fin.1 fin.2.1 fin.2.2.1 fin.2.2.2 h
  · rw [if_neg hfin]
    exact h

theorem chunkSection_parents_good (sha256 : String → String)
    (encode : String → List Nat) (decode : List Nat → String) (cfg : ChunkingConfig)
    (embModel : String) (docId : String) (sp : Option String)
    (sblocks : List ParsedBlock) (st0 : ChunkState)
    (h : ∀ p ∈ st0.parents, GoodParent sha256 docId p) :
    ∀ p ∈ (chunkSection sha256 encode decode cfg embModel docId sp sblocks st0).parents,
      GoodParent sha256 docId p := by
  have hfold : ∀ q ∈ (sblocks.foldl
      (chunkStep sha256 encode decode cfg embModel docId sp)
      (st0, "", ([] : List ParsedBlock), st0.cumOff)).1.parents,
      GoodParent sha256 docId q := by
    refine foldl_preserve
      (fun acc : ChunkState × String × List ParsedBlock × Nat =>
        ∀ p ∈ acc.1.parents, GoodParent sha256 docId p)
      (chunkStep sha256 encode decode cfg embModel docId sp) ?_ sblocks _ h
    intro s a hP p hp
    simp only [chunkStep] at hp
    by_cases hatomic : a.block_type = "table" ∨ a.block_type = "heading"
    · simp only [hatomic, if_true] at hp
      rcases List.mem_append.mp hp with hmem | hmem
      · by_cases hbuf : s.2.1 ≠ ""
        · rw [if_pos hbuf] at hmem
          exact flushBuffer_parents_good sha256 encode decode cfg embModel docId sp
            s.1 s.2.1 s.2.2.1 s.2.2.2 (fun q hq => hP q hq) p hmem
        · rw [if_neg hbuf] at hmem
          exact hP p hmem
      · exact processAtomicBlock_parents_good sha256 encode embModel docId sp a _ _ p hmem
    · simp only [hatomic, if_false] at hp
      exact hP p hp
  exact chunkFin_parents_good sha256 encode decode cfg embModel docId sp
    (sblocks.foldl (chunkStep sha256 encode decode cfg embModel docId sp)
      (st0, "", ([] : List ParsedBlock), st0.cumOff)) hfold

theorem chunkDocument_parents_good (sha256 : String → String)
    (encode : String → List Nat) (decode : List Nat → String) (cfg : ChunkingConfig)
    (embModel : String) (docId : String) (blocks : List ParsedBlock) :
    ∀ p ∈ (chunkDocument sha256 encode decode cfg embModel docId blocks).1,
      GoodParent sha256 docId p := by
  rw [chunkDocument]
  refine foldl_preserve
    (fun st : ChunkState => ∀ p ∈ st.parents, GoodParent sha256 docId p) _ ?_ _ _
    (by intro p hp; simp at hp)
  intro s g hP
  exact chunkSection_parents_good sha256 encode decode cfg embModel docId g.1 g.2 s hP

/-- C4: chunking plus metadata finalization is deterministic as a two-run
property — the finalizer's only non-content input (the timestamp) does
not enter any id or section path, each child's `chunk_id` is the hash of
`(doc_id, page_number, char_start)`, and each parent's `parent_id` is the
hash of `(doc_id, section_path, absolute char start)`. -/
theorem chunking_deterministic (sha256 : String → String)
    (encode : String → List Nat) (decode : List Nat → String) (cfg : ChunkingConfig)
    (embModel : String) (docId sourceFile : String) (blocks : List ParsedBlock)
    (t1 t2 : String) :
    ((finalizeChunks sha256 docId sourceFile blocks
        (chunkDocument sha256 encode decode cfg embModel docId blocks).1
        (chunkDocument sha256 encode decode cfg embModel docId blocks).2 t1).2.map
          (fun c => c.metadata.chunk_id) =
      (finalizeChunks sha256 docId sourceFile blocks
        (chunkDocument sha256 encode decode cfg embModel docId blocks).1
        (chunkDocument sha256 encode decode cfg embModel docId blocks).2 t2).2.map
          (fun c => c.metadata.chunk_id))
    ∧ ((finalizeChunks sha256 docId sourceFile blocks
        (chunkDocument sha256 encode decode cfg embModel docId blocks).1
        (chunkDocument sha256 encode decode cfg embModel docId blocks).2 t1).2.map
          (fun c => c.metadata.parent_id) =
      (finalizeChunks sha256 docId sourceFile blocks
        (chunkDocument sha256 encode decode cfg embModel docId blocks).1
        (chunkDocument sha256 encode decode cfg embModel docId blocks).2 t2).2.map
          (fun c => c.metadata.parent_id))
    ∧ ((finalizeChunks sha256 docId sourceFile blocks
        (chunkDocument sha256 encode decode cfg embModel docId blocks).1
        (chunkDocument sha256 encode decode cfg embModel docId blocks).2 t1).2.map
          (fun c => c.metadata.section_path) =
      (finalizeChunks sha256 docId sourceFile blocks
        (chunkDocument sha256 encode decode cfg embModel docId blocks).1
        (chunkDocument sha256 encode decode cfg embModel docId blocks).2 t2).2.map
          (fun c => c.metadata.section_path))
    ∧ ((finalizeChunks sha256 docId sourceFile blocks
        (chunkDocument sha256 encode decode cfg embModel docId blocks).1
        (chunkDocument sha256 encode decode cfg embModel docId blocks).2 t1).1.map
          (fun p => p.parent_id) =
      (finalizeChunks sha256 docId sourceFile blocks
        (chunkDocument sha256 encode decode cfg embModel docId blocks).1
        (chunkDocument sha256 encode decode cfg embModel docId blocks).2 t2).1.map
          (fun p => p.parent_id))
    ∧ ((finalizeChunks sha256 docId sourceFile blocks
        (chunkDocument sha256 encode decode cfg embModel docId blocks).1
        (chunkDocument sha256 encode decode cfg embModel docId blocks).2 t1).1.map
          (fun p => p.child_ids) =
      (finalizeChunks sha256 docId sourceFile blocks
        (chunkDocument sha256 encode decode cfg embModel docId blocks).1
        (chunkDocument sha256 encode decode cfg embModel docId blocks).2 t2).1.map
          (fun p => p.child_ids))
    ∧ (∀ c ∈ (finalizeChunks sha256 docId sourceFile blocks
        (chunkDocument sha256 encode decode cfg embModel docId blocks).1
        (chunkDocument sha256 encode decode cfg embModel docId blocks).2 t1).2,
        c.metadata.chunk_id = sha256 (docId ++ toString c.metadata.page_number ++
          toString c.metadata.char_start))
    ∧ (∀ p ∈ (finalizeChunks sha256 docId sourceFile blocks
        (chunkDocument sha256 encode decode cfg embModel docId blocks).1
        (chunkDocument sha256 encode decode cfg embModel docId blocks).2 t1).1,
        ∃ off : Nat,
          p.parent_id = sha256 (docId ++ fmtOpt p.section_path ++ toString off)) := by
  refine ⟨?_, ?_, ?_, ?_, ?_, ?_, ?_⟩
  · rw [finalize_map_chunk_id, finalize_map_chunk_id]
  · rw [finalize_map_parent_id, finalize_map_parent_id]
  · rw [finalize_map_section_path, finalize_map_section_path]
  · rw [finalize_parents_map_parent_id, finalize_parents_map_parent_id]
  · rw [finalize_parents_map_child_ids, finalize_parents_map_child_ids]
  · exact finalize_chunk_id_self sha256 docId sourceFile blocks _ _ t1
  · intro p hp
    rw [finalizeChunks_def] at hp
    rcases List.mem_map.mp hp with ⟨q, hq, rfl⟩
    rcases chunkDocument_parents_good sha256 encode decode cfg embModel docId blocks
      q hq with ⟨off, hoff⟩
    exact ⟨off, hoff⟩

/-! ### Idempotence of `MetadataBuilder.finalize_chunks` (C5) -/

theorem enumFrom_get2 {α : Type} :
    ∀ (n : Nat) (l : List α) (i : Nat),
      (List.enumFrom n l).get? i = (l.get? i).map (fun a => (n + i, a)) := by
  intro n l
  induction l generalizing n with
  | nil => intro i; rfl
  | cons a as ih =>
    intro i
    cases i with
    | zero => rfl
    | succ j =>
      show (List.enumFrom (n + 1) as).get? j = (as.get? j).map (fun x => (n + (j + 1), x))
      rw [ih (n + 1) j]
      have hn : n + 1 + j = n + (j + 1) := by omega
      rw [hn]

theorem enum_get2 {α : Type} (l : List α) (i : Nat) :
    l.enum.get? i = (l.get? i).map (fun a => (i, a)) := by
  have h := enumFrom_get2 0 l i
  simpa using h

theorem enumMap_get2 {α β : Type} (f : Nat → α → β) (l : List α) (i : Nat) :
    (l.enum.map (fun ic => f ic.1 ic.2)).get? i = (l.get? i).map (f i) := by
  rw [List.get?_map, enum_get2]
  cases l.get? i with
  | none => rfl
  | some a => rfl

theorem get2_isSome {α : Type} (l : List α) (n : Nat) :
    (l.get? n).isSome = decide (n < l.length) := by
  by_cases h : n < l.length
  · rw [List.get?_eq_get h]
    simp [h]
  · rw [List.get?_eq_none.mpr (Nat.le_of_not_lt h)]
    simp [h]

theorem map_const_of_isSome {α β : Type} (o1 o2 : Option α) (X : β)
    (h : o1.isSome = o2.isSome) :
    o1.map (fun _ => X) = o2.map (fun _ => X) := by
  cases o1 <;> cases o2 <;> simp_all

theorem linkPass_get2 (l : List ChildChunk) (total i : Nat) :
    (linkPass l total).get? i = (l.get? i).map (fun c => withLinks l total i c) := by
  rw [linkPass]
  exact enumMap_get2 (withLinks l total) l i

theorem linkPass_length (l : List ChildChunk) (total : Nat) :
    (linkPass l total).length = l.length := by
  rw [linkPass]
  simp

theorem linkPass_get_prev (l : List ChildChunk) (total i : Nat) (hi : 0 < i) :
    ((linkPass l total).get? i).map (fun c => c.metadata.prev_chunk_id) =
      (l.get? i).map (fun _ => (l.get? (i - 1)).map (fun x => x.metadata.chunk_id)) := by
  rw [linkPass_get2, Option.map_map]
  cases l.get? i with
  | none => rfl
  | some c => simp [Function.comp, withLinks_prev, hi]

theorem linkPass_get_prev_zero (l : List ChildChunk) (total : Nat) :
    ((linkPass l total).get? 0).map (fun c => c.metadata.prev_chunk_id) =
      (l.get? 0).map (fun c => c.metadata.prev_chunk_id) := by
  rw [linkPass_get2, Option.map_map]
  cases l.get? 0 with
  | none => rfl
  | some c => simp [Function.comp, withLinks_prev]

theorem linkPass_get_next (l : List ChildChunk) (total i : Nat) (hi : i < total - 1) :
    ((linkPass l total).get? i).map (fun c => c.metadata.next_chunk_id) =
      (l.get? i).map (fun _ => (l.get? (i + 1)).map (fun x => x.metadata.chunk_id)) := by
  rw [linkPass_get2, Option.map_map]
  cases l.get? i with
  | none => rfl
  | some c => simp [Function.comp, withLinks_next, hi]

theorem linkPass_get_next_last (l : List ChildChunk) (total i : Nat)
    (hi : ¬ i < total - 1) :
    ((linkPass l total).get? i).map (fun c => c.metadata.next_chunk_id) =
      (l.get? i).map (fun c => c.metadata.next_chunk_id) := by
  rw [linkPass_get2, Option.map_map]
  cases l.get? i with
  | none => rfl
  | some c => simp [Function.comp, withLinks_next, hi]

theorem authIdOf_withLinks (sha256 : String → String) (d : String)
    (l : List ChildChunk) (total i : Nat) (c : ChildChunk) :
    authIdOf sha256 d (withLinks l total i c) = authIdOf sha256 d c := by
  simp only [authIdOf, withLinks_page_number, withLinks_char_start]

theorem authIdOf_finalizeChild (sha256 : String → String) (d sf : String) (T : Nat)
    (t : String) (hs : List Nat) (i : Nat) (c : ChildChunk) :
    authIdOf sha256 d (finalizeChild sha256 d sf T t hs i c) = authIdOf sha256 d c := rfl

theorem finalizePass1_map_authId (sha256 : String → String) (d sf : String) (T : Nat)
    (t : String) (hs : List Nat) (cs : List ChildChunk) :
    ((cs.enum.map (fun ic => finalizeChild sha256 d sf T t hs ic.1 ic.2)).map
        (fun c => c.metadata.chunk_id)) = cs.map (authIdOf sha256 d) :=
  enum_map_comp (fun i c => finalizeChild sha256 d sf T t hs i c)
    (fun c => c.metadata.chunk_id) (authIdOf sha256 d)
    (fun i c => finalizeChild_chunk_id sha256 d sf T t hs i c) cs

theorem finalizePass1_map_authId2 (sha256 : String → String) (d sf : String) (T : Nat)
    (t : String) (hs : List Nat) (cs : List ChildChunk) :
    ((cs.enum.map (fun ic => finalizeChild sha256 d sf T t hs ic.1 ic.2)).map
        (authIdOf sha256 d)) = cs.map (authIdOf sha256 d) :=
  enum_map_comp (fun i c => finalizeChild sha256 d sf T t hs i c)
    (authIdOf sha256 d) (authIdOf sha256 d)
    (fun i c => authIdOf_finalizeChild sha256 d sf T t hs i c) cs

theorem linkPass_map_authId (sha256 : String → String) (d : String)
    (l : List ChildChunk) (total : Nat) :
    (linkPass l total).map (authIdOf sha256 d) = l.map (authIdOf sha256 d) :=
  linkPass_map_of_preserved (authIdOf sha256 d)
    (fun l total i c => authIdOf_withLinks sha256 d l total i c) l total

theorem relink_prev (sha256 : String → String) (d sf t2 : String) (hs2 : List Nat)
    (Tc T1 T2 : Nat) (q : List ChildChunk)
    (hq : q.map (fun c => c.metadata.chunk_id) = q.map (authIdOf sha256 d)) :
    (linkPass ((linkPass q T1).enum.map
        (fun ic => finalizeChild sha256 d sf Tc t2 hs2 ic.1 ic.2)) T2).map
      (fun c => c.metadata.prev_chunk_id) =
    (linkPass q T1).map (fun c => c.metadata.prev_chunk_id) := by
  have hchunk : ((linkPass q T1).enum.map
      (fun ic => finalizeChild sha256 d sf Tc t2 hs2 ic.1 ic.2)).map
        (fun c => c.metadata.chunk_id) = q.map (fun c => c.metadata.chunk_id) := by
    rw [finalizePass1_map_authId, linkPass_map_authId, ← hq]
  have hlen : ((linkPass q T1).enum.map
      (fun ic => finalizeChild sha256 d sf Tc t2 hs2 ic.1 ic.2)).length = q.length := by
    simp [linkPass_length]
  apply List.ext_get?
  intro i
  rw [List.get?_map, List.get?_map]
  by_cases hi : 0 < i
  · rw [linkPass_get_prev _ T2 i hi, linkPass_get_prev q T1 i hi]
    have hx : (((linkPass q T1).enum.map
        (fun ic => finalizeChild sha256 d sf Tc t2 hs2 ic.1 ic.2)).get? (i - 1)).map
          (fun x => x.metadata.chunk_id) =
        (q.get? (i - 1)).map (fun x => x.metadata.chunk_id) := by
      rw [← List.get?_map, ← List.get?_map, hchunk]
    rw [hx]
    apply map_const_of_isSome
    rw [get2_isSome, get2_isSome, hlen]
  · have h0 : i = 0 := by omega
    subst h0
    rw [linkPass_get_prev_zero ((linkPass q T1).enum.map
      (fun ic => finalizeChild sha256 d sf Tc t2 hs2 ic.1 ic.2)) T2]
    rw [enumMap_get2 (finalizeChild sha256 d sf Tc t2 hs2) (linkPass q T1) 0,
      Option.map_map]
    have hstep : Option.map ((fun c => c.metadata.prev_chunk_id) ∘
        finalizeChild sha256 d sf Tc t2 hs2 0) ((linkPass q T1).get? 0) =
        Option.map (fun c => c.metadata.prev_chunk_id) ((linkPass q T1).get? 0) := by
      cases (linkPass q T1).get? 0 with
      | none => rfl
      | some c => simp [Function.comp, finalizeChild_prev]
    rw [hstep]

theorem relink_next (sha256 : String → String) (d sf t2 : String) (hs2 : List Nat)
    (Tc T1 T2 : Nat) (q : List ChildChunk)
    (hq : q.map (fun c => c.metadata.chunk_id) = q.map (authIdOf sha256 d))
    (hT : T2 = T1) :
    (linkPass ((linkPass q T1).enum.map
        (fun ic => finalizeChild sha256 d sf Tc t2 hs2 ic.1 ic.2)) T2).map
      (fun c => c.metadata.next_chunk_id) =
    (linkPass q T1).map (fun c => c.metadata.next_chunk_id) := by
  subst hT
  have hchunk : ((linkPass q T2).enum.map
      (fun ic => finalizeChild sha256 d sf Tc t2 hs2 ic.1 ic.2)).map
        (fun c => c.metadata.chunk_id) = q.map (fun c => c.metadata.chunk_id) := by
    rw [finalizePass1_map_authId, linkPass_map_authId, ← hq]
  have hlen : ((linkPass q T2).enum.map
      (fun ic => finalizeChild sha256 d sf Tc t2 hs2 ic.1 ic.2)).length = q.length := by
    simp [linkPass_length]
  apply List.ext_get?
  intro i
  rw [List.get?_map, List.get?_map]
  by_cases hi : i < T2 - 1
  · rw [linkPass_get_next _ T2 i hi, linkPass_get_next q T2 i hi]
    have hx : (((linkPass q T2).enum.map
        (fun ic => finalizeChild sha256 d sf Tc t2 hs2 ic.1 ic.2)).get? (i + 1)).map
          (fun x => x.metadata.chunk_id) =
        (q.get? (i + 1)).map (fun x => x.metadata.chunk_id) := by
      rw [← List.get?_map, ← List.get?_map, hchunk]
    rw [hx]
    apply map_const_of_isSome
    rw [get2_isSome, get2_isSome, hlen]
  · rw [linkPass_get_next_last ((linkPass q T2).enum.map
      (fun ic => finalizeChild sha256 d sf Tc t2 hs2 ic.1 ic.2)) T2 i hi]
    rw [enumMap_get2 (finalizeChild sha256 d sf Tc t2 hs2) (linkPass q T2) i,
      Option.map_map]
    have hstep : Option.map ((fun c => c.metadata.next_chunk_id) ∘
        finalizeChild sha256 d sf Tc t2 hs2 i) ((linkPass q T2).get? i) =
        Option.map (fun c => c.metadata.next_chunk_id) ((linkPass q T2).get? i) := by
      cases (linkPass q T2).get? i with
      | none => rfl
      | some c => simp [Function.comp, finalizeChild_next]
    rw [hstep]

theorem authSubst_id (sha256 : String → String) (d : String)
    (children : List ChildChunk)
    (h : ∀ c ∈ children, c.metadata.chunk_id = authIdOf sha256 d c) (tid : String) :
    authSubst sha256 d children tid = tid := by
  cases hf : ((children.map
      (fun c => (c.metadata.chunk_id, authIdOf sha256 d c))).reverse.find?
        (fun p => p.1 == tid)) with
  | none => simp [authSubst, hf]
  | some p =>
    have hmem := List.mem_of_find?_eq_some hf
    have hpred := List.find?_some hf
    have h1 : p.1 = tid := by simpa using hpred
    rcases List.mem_map.mp (List.mem_reverse.mp hmem) with ⟨c, hc, hpc⟩
    have h2 : p.2 = p.1 := by
      rw [← hpc]
      exact (h c hc).symm
    simp [authSubst, hf, h2, h1]

/-- C5: `MetadataBuilder.finalize_chunks` is idempotent on ids and links —
applying it again to its own output (with any timestamp and any
`original_blocks`) leaves every child's authoritative `chunk_id`, every
`prev_chunk_id`/`next_chunk_id` link, and every parent's `child_ids` list
unchanged. -/
theorem finalize_idempotent (sha256 : String → String) (d sf : String)
    (ob ob2 : List ParsedBlock) (ps : List ParentChunk) (cs : List ChildChunk)
    (t1 t2 : String) :
    ((finalizeChunks sha256 d sf ob2
        (finalizeChunks sha256 d sf ob ps cs t1).1
        (finalizeChunks sha256 d sf ob ps cs t1).2 t2).2.map
          (fun c => c.metadata.chunk_id) =
      (finalizeChunks sha256 d sf ob ps cs t1).2.map (fun c => c.metadata.chunk_id))
    ∧ ((finalizeChunks sha256 d sf ob2
        (finalizeChunks sha256 d sf ob ps cs t1).1
        (finalizeChunks sha256 d sf ob ps cs t1).2 t2).2.map
          (fun c => c.metadata.prev_chunk_id) =
      (finalizeChunks sha256 d sf ob ps cs t1).2.map
        (fun c => c.metadata.prev_chunk_id))
    ∧ ((finalizeChunks sha256 d sf ob2
        (finalizeChunks sha256 d sf ob ps cs t1).1
        (finalizeChunks sha256 d sf ob ps cs t1).2 t2).2.map
          (fun c => c.metadata.next_chunk_id) =
      (finalizeChunks sha256 d sf ob ps cs t1).2.map
        (fun c => c.metadata.next_chunk_id))
    ∧ ((finalizeChunks sha256 d sf ob2
        (finalizeChunks sha256 d sf ob ps cs t1).1
        (finalizeChunks sha256 d sf ob ps cs t1).2 t2).1.map
          (fun p => p.child_ids) =
      (finalizeChunks sha256 d sf ob ps cs t1).1.map (fun p => p.child_ids)) := by
  have hq : (cs.enum.map (fun ic =>
      finalizeChild sha256 d sf cs.length t1 (headingIdx cs) ic.1 ic.2)).map
        (fun c => c.metadata.chunk_id) =
      (cs.enum.map (fun ic =>
        finalizeChild sha256 d sf cs.length t1 (headingIdx cs) ic.1 ic.2)).map
          (authIdOf sha256 d) := by
    rw [finalizePass1_map_authId, finalizePass1_map_authId2]
  have hT : (linkPass (cs.enum.map (fun ic =>
      finalizeChild sha256 d sf cs.length t1 (headingIdx cs) ic.1 ic.2))
        cs.length).length = cs.length := by
    rw [linkPass_length]
    simp
  refine ⟨?_, ?_, ?_, ?_⟩
  · rw [finalize_map_chunk_id]
    exact List.map_congr_left
      (fun c hc => (finalize_chunk_id_self sha256 d sf ob ps cs t1 c hc).symm)
  · rw [finalizeChunks_def sha256 d sf ob2 (finalizeChunks sha256 d sf ob ps cs t1).1
        (finalizeChunks sha256 d sf ob ps cs t1).2 t2,
      finalizeChunks_def sha256 d sf ob ps cs t1]
    dsimp only
    apply relink_prev
    exact hq
  · rw [finalizeChunks_def sha256 d sf ob2 (finalizeChunks sha256 d sf ob ps cs t1).1
        (finalizeChunks sha256 d sf ob ps cs t1).2 t2,
      finalizeChunks_def sha256 d sf ob ps cs t1]
    dsimp only
    apply relink_next
    · exact hq
    · exact hT
  · rw [finalize_parents_map_child_ids]
    refine List.map_congr_left (fun p hp => ?_)
    have hid : ∀ tid,
        authSubst sha256 d (finalizeChunks sha256 d sf ob ps cs t1).2 tid = tid :=
      authSubst_id sha256 d (finalizeChunks sha256 d sf ob ps cs t1).2
        (fun c hc => finalize_chunk_id_self sha256 d sf ob ps cs t1 c hc)
    calc p.child_ids.map (authSubst sha256 d (finalizeChunks sha256 d sf ob ps cs t1).2)
        = p.child_ids.map id := List.map_congr_left (fun tid _ => hid tid)
      _ = p.child_ids := List.map_id p.child_ids

/-- C9: `IngestionPipeline.run` — on a failing run the failure is caught
once at the top level, reported to the progress callback as `(-1, message)`
after a strictly increasing positive-percent prefix, and the same error is
re-raised; on a run with no failure the callback percents are exactly
`5,8,10,25,30,35,40,50,55,60,65,85,90,95,98,100` (strictly increasing) and
the final call is `(100, "Ingestion completed successfully")`. -/
theorem ingestion_progress
    (rf : Except String (List Nat))
    (sp : List Nat → Except String Unit)
    (pa : Except String (List ParsedBlock))
    (de : List ParsedBlock → Except String (List ParsedBlock))
    (ch : List ParsedBlock → Except String (List ParentChunk × List ChildChunk))
    (fi : List ParsedBlock → List ParentChunk → List ChildChunk →
      Except String (List ParentChunk × List ChildChunk))
    (em : List ChildChunk → Except String (List ChildChunk))
    (up : List ChildChunk → Except String Unit)
    (bb : List ChildChunk → Except String Unit)
    (sv : List ParentChunk → Except String Unit) :
    ((runIngestion true rf sp pa de ch fi em up bb sv).2 = none →
      (runIngestion true rf sp pa de ch fi em up bb sv).1.map Prod.fst =
        [5, 8, 10, 25, 30, 35, 40, 50, 55, 60, 65, 85, 90, 95, 98, 100]
      ∧ (runIngestion true rf sp pa de ch fi em up bb sv).1.getLast? =
        some ((100 : Int), "Ingestion completed successfully")
      ∧ List.Chain' (fun a b => a < b) ((runIngestion true rf sp pa de ch fi em up bb sv).1.map Prod.fst))
    ∧ (∀ e2, (runIngestion true rf sp pa de ch fi em up bb sv).2 = some e2 →
      ∃ tr0, (runIngestion true rf sp pa de ch fi em up bb sv).1 = tr0 ++ [((-1 : Int), e2)]
        ∧ List.Chain' (fun a b => a < b) (tr0.map Prod.fst)
        ∧ ∀ q ∈ tr0, (0 : Int) < q.1) := by
  cases hrf : rf with
  | error e =>
    have hr : runIngestion true (Except.error e) sp pa de ch fi em up bb sv =
        ([((5 : Int), "Starting processing"),
        ((-1 : Int), e)], some e) := by
      simp [runIngestion, updProg, failProg]
    rw [hr]
    refine ⟨fun h => Option.noConfusion h, fun e2 he2 => ?_⟩
    obtain rfl : e = e2 := Option.some.inj he2
    refine ⟨[((5 : Int), "Starting processing")], rfl, ?_, ?_⟩
    · norm_num [List.chain'_cons, List.chain'_singleton]
    · norm_num [List.forall_mem_cons]
  | ok fileBytes =>
  cases hsp : sp fileBytes with
  | error e =>
    have hr : runIngestion true (Except.ok fileBytes) sp pa de ch fi em up bb sv =
        ([((5 : Int), "Starting processing"),
        ((-1 : Int), e)], some e) := by
      simp [runIngestion, updProg, failProg, hsp]
    rw [hr]
    refine ⟨fun h => Option.noConfusion h, fun e2 he2 => ?_⟩
    obtain rfl : e = e2 := Option.some.inj he2
    refine ⟨[((5 : Int), "Starting processing")], rfl, ?_, ?_⟩
    · norm_num [List.chain'_cons, List.chain'_singleton]
    · norm_num [List.forall_mem_cons]
  | ok u1 =>
  cases hpa : pa with
  | error e =>
    have hr : runIngestion true (Except.ok fileBytes) sp (Except.error e) de ch fi em up bb sv =
        ([((5 : Int), "Starting processing"),
        ((8 : Int), "PDF saved to storage"),
        ((10 : Int), "Parsing PDF layout"),
        ((-1 : Int), e)], some e) := by
      simp [runIngestion, updProg, failProg, hsp]
    rw [hr]
    refine ⟨fun h => Option.noConfusion h, fun e2 he2 => ?_⟩
    obtain rfl : e = e2 := Option.some.inj he2
    refine ⟨[((5 : Int), "Starting processing"),
        ((8 : Int), "PDF saved to storage"),
        ((10 : Int), "Parsing PDF layout")], rfl, ?_, ?_⟩
    · norm_num [List.chain'_cons, List.chain'_singleton]
    · norm_num [List.forall_mem_cons]
  | ok rawBlocks =>
  cases hde : de rawBlocks with
  | error e =>
    have hr : runIngestion true (Except.ok fileBytes) sp (Except.ok rawBlocks) de ch fi em up bb sv =
        ([((5 : Int), "Starting processing"),
        ((8 : Int), "PDF saved to storage"),
        ((10 : Int), "Parsing PDF layout"),
        ((25 : Int), "Extracted " ++ toString rawBlocks.length ++ " blocks"),
        ((30 : Int), "Detecting document structure"),
        ((-1 : Int), e)], some e) := by
      simp [runIngestion, updProg, failProg, hsp, hde]
    rw [hr]
    refine ⟨fun h => Option.noConfusion h, fun e2 he2 => ?_⟩
    obtain rfl : e = e2 := Option.some.inj he2
    refine ⟨[((5 : Int), "Starting processing"),
        ((8 : Int), "PDF saved to storage"),
        ((10 : Int), "Parsing PDF layout"),
        ((25 : Int), "Extracted " ++ toString rawBlocks.length ++ " blocks"),
        ((30 : Int), "Detecting document structure")], rfl, ?_, ?_⟩
    · norm_num [List.chain'_cons, List.chain'_singleton]
    · norm_num [List.forall_mem_cons]
  | ok enrichedBlocks =>
  cases hch : ch enrichedBlocks with
  | error e =>
    have hr : runIngestion true (Except.ok fileBytes) sp (Except.ok rawBlocks) de ch fi em up bb sv =
        ([((5 : Int), "Starting processing"),
        ((8 : Int), "PDF saved to storage"),
        ((10 : Int), "Parsing PDF layout"),
        ((25 : Int), "Extracted " ++ toString rawBlocks.length ++ " blocks"),
        ((30 : Int), "Detecting document structure"),
        ((35 : Int), "Structure enrichment complete"),
        ((40 : Int), "Creating parent-child chunks"),
        ((-1 : Int), e)], some e) := by
      simp [runIngestion, updProg, failProg, hsp, hde, hch]
    rw [hr]
    refine ⟨fun h => Option.noConfusion h, fun e2 he2 => ?_⟩
    obtain rfl : e = e2 := Option.some.inj he2
    refine ⟨[((5 : Int), "Starting processing"),
        ((8 : Int), "PDF saved to storage"),
        ((10 : Int), "Parsing PDF layout"),
        ((25 : Int), "Extracted " ++ toString rawBlocks.length ++ " blocks"),
        ((30 : Int), "Detecting document structure"),
        ((35 : Int), "Structure enrichment complete"),
        ((40 : Int), "Creating parent-child chunks")], rfl, ?_, ?_⟩
    · norm_num [List.chain'_cons, List.chain'_singleton]
    · norm_num [List.forall_mem_cons]
  | ok pc =>
  cases hfi : fi enrichedBlocks pc.1 pc.2 with
  | error e =>
    have hr : runIngestion true (Except.ok fileBytes) sp (Except.ok rawBlocks) de ch fi em up bb sv =
        ([((5 : Int), "Starting processing"),
        ((8 : Int), "PDF saved to storage"),
        ((10 : Int), "Parsing PDF layout"),
        ((25 : Int), "Extracted " ++ toString rawBlocks.length ++ " blocks"),
        ((30 : Int), "Detecting document structure"),
        ((35 : Int), "Structure enrichment complete"),
        ((40 : Int), "Creating parent-child chunks"),
        ((50 : Int), "Generated " ++ toString pc.1.length ++ " parents and " ++ toString pc.2.length ++ " children"),
        ((55 : Int), "Finalizing metadata and IDs"),
        ((-1 : Int), e)], some e) := by
      simp [runIngestion, updProg, failProg, hsp, hde, hch, hfi]
    rw [hr]
    refine ⟨fun h => Option.noConfusion h, fun e2 he2 => ?_⟩
    obtain rfl : e = e2 := Option.some.inj he2
    refine ⟨[((5 : Int), "Starting processing"),
        ((8 : Int), "PDF saved to storage"),
        ((10 : Int), "Parsing PDF layout"),
        ((25 : Int), "Extracted " ++ toString rawBlocks.length ++ " blocks"),
        ((30 : Int), "Detecting document structure"),
        ((35 : Int), "Structure enrichment complete"),
        ((40 : Int), "Creating parent-child chunks"),
        ((50 : Int), "Generated " ++ toString pc.1.length ++ " parents and " ++ toString pc.2.length ++ " children"),
        ((55 : Int), "Finalizing metadata and IDs")], rfl, ?_, ?_⟩
    · norm_num [List.chain'_cons, List.chain'_singleton]
    · norm_num [List.forall_mem_cons]
  | ok pc2 =>
  cases hem : em pc2.2 with
  | error e =>
    have hr : runIngestion true (Except.ok fileBytes) sp (Except.ok rawBlocks) de ch fi em up bb sv =
        ([((5 : Int), "Starting processing"),
        ((8 : Int), "PDF saved to storage"),
        ((10 : Int), "Parsing PDF layout"),
        ((25 : Int), "Extracted " ++ toString rawBlocks.length ++ " blocks"),
        ((30 : Int), "Detecting document structure"),
        ((35 : Int), "Structure enrichment complete"),
        ((40 : Int), "Creating parent-child chunks"),
        ((50 : Int), "Generated " ++ toString pc.1.length ++ " parents and " ++ toString pc.2.length ++ " children"),
        ((55 : Int), "Finalizing metadata and IDs"),
        ((60 : Int), "Metadata finalized"),
        ((65 : Int), "Generating embeddings (this may take a moment)"),
        ((-1 : Int), e)], some e) := by
      simp [runIngestion, updProg, failProg, hsp, hde, hch, hfi, hem]
    rw [hr]
    refine ⟨fun h => Option.noConfusion h, fun e2 he2 => ?_⟩
    obtain rfl : e = e2 := Option.some.inj he2
    refine ⟨[((5 : Int), "Starting processing"),
        ((8 : Int), "PDF saved to storage"),
        ((10 : Int), "Parsing PDF layout"),
        ((25 : Int), "Extracted " ++ toString rawBlocks.length ++ " blocks"),
        ((30 : Int), "Detecting document structure"),
        ((35 : Int), "Structure enrichment complete"),
        ((40 : Int), "Creating parent-child chunks"),
        ((50 : Int), "Generated " ++ toString pc.1.length ++ " parents and " ++ toString pc.2.length ++ " children"),
        ((55 : Int), "Finalizing metadata and IDs"),
        ((60 : Int), "Metadata finalized"),
        ((65 : Int), "Generating embeddings (this may take a moment)")], rfl, ?_, ?_⟩
    · norm_num [List.chain'_cons, List.chain'_singleton]
    · norm_num [List.forall_mem_cons]
  | ok children2 =>
  cases hup : up children2 with
  | error e =>
    have hr : runIngestion true (Except.ok fileBytes) sp (Except.ok rawBlocks) de ch fi em up bb sv =
        ([((5 : Int), "Starting processing"),
        ((8 : Int), "PDF saved to storage"),
        ((10 : Int), "Parsing PDF layout"),
        ((25 : Int), "Extracted " ++ toString rawBlocks.length ++ " blocks"),
        ((30 : Int), "Detecting document structure"),
        ((35 : Int), "Structure enrichment complete"),
        ((40 : Int), "Creating parent-child chunks"),
        ((50 : Int), "Generated " ++ toString pc.1.length ++ " parents and " ++ toString pc.2.length ++ " children"),
        ((55 : Int), "Finalizing metadata and IDs"),
        ((60 : Int), "Metadata finalized"),
        ((65 : Int), "Generating embeddings (this may take a moment)"),
        ((85 : Int), "Embedding complete"),
        ((90 : Int), "Indexing vectors in Qdrant"),
        ((-1 : Int), e)], some e) := by
      simp [runIngestion, updProg, failProg, hsp, hde, hch, hfi, hem, hup]
    rw [hr]
    refine ⟨fun h => Option.noConfusion h, fun e2 he2 => ?_⟩
    obtain rfl : e = e2 := Option.some.inj he2
    refine ⟨[((5 : Int), "Starting processing"),
        ((8 : Int), "PDF saved to storage"),
        ((10 : Int), "Parsing PDF layout"),
        ((25 : Int), "Extracted " ++ toString rawBlocks.length ++ " blocks"),
        ((30 : Int), "Detecting document structure"),
        ((35 : Int), "Structure enrichment complete"),
        ((40 : Int), "Creating parent-child chunks"),
        ((50 : Int), "Generated " ++ toString pc.1.length ++ " parents and " ++ toString pc.2.length ++ " children"),
        ((55 : Int), "Finalizing metadata and IDs"),
        ((60 : Int), "Metadata finalized"),
        ((65 : Int), "Generating embeddings (this may take a moment)"),
        ((85 : Int), "Embedding complete"),
        ((90 : Int), "Indexing vectors in Qdrant")], rfl, ?_, ?_⟩
    · norm_num [List.chain'_cons, List.chain'_singleton]
    · norm_num [List.forall_mem_cons]
  | ok u2 =>
  cases hbb : bb children2 with
  | error e =>
    have hr : runIngestion true (Except.ok fileBytes) sp (Except.ok rawBlocks) de ch fi em up bb sv =
        ([((5 : Int), "Starting processing"),
        ((8 : Int), "PDF saved to storage"),
        ((10 : Int), "Parsing PDF layout"),
        ((25 : Int), "Extracted " ++ toString rawBlocks.length ++ " blocks"),
        ((30 : Int), "Detecting document structure"),
        ((35 : Int), "Structure enrichment complete"),
        ((40 : Int), "Creating parent-child chunks"),
        ((50 : Int), "Generated " ++ toString pc.1.length ++ " parents and " ++ toString pc.2.length ++ " children"),
        ((55 : Int), "Finalizing metadata and IDs"),
        ((60 : Int), "Metadata finalized"),
        ((65 : Int), "Generating embeddings (this may take a moment)"),
        ((85 : Int), "Embedding complete"),
        ((90 : Int), "Indexing vectors in Qdrant"),
        ((95 : Int), "Building BM25 index"),
        ((-1 : Int), e)], some e) := by
      simp [runIngestion, updProg, failProg, hsp, hde, hch, hfi, hem, hup, hbb]
    rw [hr]
    refine ⟨fun h => Option.noConfusion h, fun e2 he2 => ?_⟩
    obtain rfl : e = e2 := Option.some.inj he2
    refine ⟨[((5 : Int), "Starting processing"),
        ((8 : Int), "PDF saved to storage"),
        ((10 : Int), "Parsing PDF layout"),
        ((25 : Int), "Extracted " ++ toString rawBlocks.length ++ " blocks"),
        ((30 : Int), "Detecting document structure"),
        ((35 : Int), "Structure enrichment complete"),
        ((40 : Int), "Creating parent-child chunks"),
        ((50 : Int), "Generated " ++ toString pc.1.length ++ " parents and " ++ toString pc.2.length ++ " children"),
        ((55 : Int), "Finalizing metadata and IDs"),
        ((60 : Int), "Metadata finalized"),
        ((65 : Int), "Generating embeddings (this may take a moment)"),
        ((85 : Int), "Embedding complete"),
        ((90 : Int), "Indexing vectors in Qdrant"),
        ((95 : Int), "Building BM25 index")], rfl, ?_, ?_⟩
    · norm_num [List.chain'_cons, List.chain'_singleton]
    · norm_num [List.forall_mem_cons]
  | ok u3 =>
  cases hsv : sv pc2.1 with
  | error e =>
    have hr : runIngestion true (Except.ok fileBytes) sp (Except.ok rawBlocks) de ch fi em up bb sv =
        ([((5 : Int), "Starting processing"),
        ((8 : Int), "PDF saved to storage"),
        ((10 : Int), "Parsing PDF layout"),
        ((25 : Int), "Extracted " ++ toString rawBlocks.length ++ " blocks"),
        ((30 : Int), "Detecting document structure"),
        ((35 : Int), "Structure enrichment complete"),
        ((40 : Int), "Creating parent-child chunks"),
        ((50 : Int), "Generated " ++ toString pc.1.length ++ " parents and " ++ toString pc.2.length ++ " children"),
        ((55 : Int), "Finalizing metadata and IDs"),
        ((60 : Int), "Metadata finalized"),
        ((65 : Int), "Generating embeddings (this may take a moment)"),
        ((85 : Int), "Embedding complete"),
        ((90 : Int), "Indexing vectors in Qdrant"),
        ((95 : Int), "Building BM25 index"),
        ((98 : Int), "Saving parent chunks for context retrieval"),
        ((-1 : Int), e)], some e) := by
      simp [runIngestion, updProg, failProg, hsp, hde, hch, hfi, hem, hup, hbb, hsv]
    rw [hr]
    refine ⟨fun h => Option.noConfusion h, fun e2 he2 => ?_⟩
    obtain rfl : e = e2 := Option.some.inj he2
    refine ⟨[((5 : Int), "Starting processing"),
        ((8 : Int), "PDF saved to storage"),
        ((10 : Int), "Parsing PDF layout"),
        ((25 : Int), "Extracted " ++ toString rawBlocks.length ++ " blocks"),
        ((30 : Int), "Detecting document structure"),
        ((35 : Int), "Structure enrichment complete"),
        ((40 : Int), "Creating parent-child chunks"),
        ((50 : Int), "Generated " ++ toString pc.1.length ++ " parents and " ++ toString pc.2.length ++ " children"),
        ((55 : Int), "Finalizing metadata and IDs"),
        ((60 : Int), "Metadata finalized"),
        ((65 : Int), "Generating embeddings (this may take a moment)"),
        ((85 : Int), "Embedding complete"),
        ((90 : Int), "Indexing vectors in Qdrant"),
        ((95 : Int), "Building BM25 index"),
        ((98 : Int), "Saving parent chunks for context retrieval")], rfl, ?_, ?_⟩
    · norm_num [List.chain'_cons, List.chain'_singleton]
    · norm_num [List.forall_mem_cons]
  | ok u4 =>
    have hr : runIngestion true (Except.ok fileBytes) sp (Except.ok rawBlocks) de ch fi em up bb sv =
        ([((5 : Int), "Starting processing"),
        ((8 : Int), "PDF saved to storage"),
        ((10 : Int), "Parsing PDF layout"),
        ((25 : Int), "Extracted " ++ toString rawBlocks.length ++ " blocks"),
        ((30 : Int), "Detecting document structure"),
        ((35 : Int), "Structure enrichment complete"),
        ((40 : Int), "Creating parent-child chunks"),
        ((50 : Int), "Generated " ++ toString pc.1.length ++ " parents and " ++ toString pc.2.length ++ " children"),
        ((55 : Int), "Finalizing metadata and IDs"),
        ((60 : Int), "Metadata finalized"),
        ((65 : Int), "Generating embeddings (this may take a moment)"),
        ((85 : Int), "Embedding complete"),
        ((90 : Int), "Indexing vectors in Qdrant"),
        ((95 : Int), "Building BM25 index"),
        ((98 : Int), "Saving parent chunks for context retrieval"),
        ((100 : Int), "Ingestion completed successfully")], none) := by
      simp [runIngestion, updProg, failProg, hsp, hde, hch, hfi, hem,
        hup, hbb, hsv]
    rw [hr]
    refine ⟨fun _ => ⟨rfl, rfl, ?_⟩, fun e2 he2 => Option.noConfusion he2⟩
    norm_num [List.chain'_cons, List.chain'_singleton]

theorem ingestion_progress_witness :
    ((runIngestion true (Except.ok ([] : List Nat)) (fun _ => Except.ok ())
      (Except.ok ([] : List ParsedBlock)) (fun b => Except.ok b)
      (fun _ => Except.ok (([] : List ParentChunk), ([] : List ChildChunk)))
      (fun _ p c => Except.ok (p, c)) (fun c => Except.ok c)
      (fun _ => Except.ok ()) (fun _ => Except.ok ()) (fun _ => Except.ok ())).2 = none
      ∧ (runIngestion true (Except.ok ([] : List Nat)) (fun _ => Except.ok ())
      (Except.ok ([] : List ParsedBlock)) (fun b => Except.ok b)
      (fun _ => Except.ok (([] : List ParentChunk), ([] : List ChildChunk)))
      (fun _ p c => Except.ok (p, c)) (fun c => Except.ok c)
      (fun _ => Except.ok ()) (fun _ => Except.ok ()) (fun _ => Except.ok ())).1.map Prod.fst =
        [5, 8, 10, 25, 30, 35, 40, 50, 55, 60, 65, 85, 90, 95, 98, 100]
      ∧ (runIngestion true (Except.ok ([] : List Nat)) (fun _ => Except.ok ())
      (Except.ok ([] : List ParsedBlock)) (fun b => Except.ok b)
      (fun _ => Except.ok (([] : List ParentChunk), ([] : List ChildChunk)))
      (fun _ p c => Except.ok (p, c)) (fun c => Except.ok c)
      (fun _ => Except.ok ()) (fun _ => Except.ok ()) (fun _ => Except.ok ())).1.getLast? =
        some ((100 : Int), "Ingestion completed successfully"))
    ∧ ((runIngestion true (Except.error "boom") (fun _ => Except.ok ())
      (Except.ok ([] : List ParsedBlock)) (fun b => Except.ok b)
      (fun _ => Except.ok (([] : List ParentChunk), ([] : List ChildChunk)))
      (fun _ p c => Except.ok (p, c)) (fun c => Except.ok c)
      (fun _ => Except.ok ()) (fun _ => Except.ok ()) (fun _ => Except.ok ())).2 = some "boom"
      ∧ ∃ tr0, (runIngestion true (Except.error "boom") (fun _ => Except.ok ())
      (Except.ok ([] : List ParsedBlock)) (fun b => Except.ok b)
      (fun _ => Except.ok (([] : List ParentChunk), ([] : List ChildChunk)))
      (fun _ p c => Except.ok (p, c)) (fun c => Except.ok c)
      (fun _ => Except.ok ()) (fun _ => Except.ok ()) (fun _ => Except.ok ())).1 =
          tr0 ++ [((-1 : Int), "boom")]
        ∧ List.Chain' (fun a b => a < b) (tr0.map Prod.fst)
        ∧ ∀ q ∈ tr0, (0 : Int) < q.1) := by
  constructor
  · have h := (ingestion_progress (Except.ok ([] : List Nat)) (fun _ => Except.ok ())
      (Except.ok ([] : List ParsedBlock)) (fun b => Except.ok b)
      (fun _ => Except.ok (([] : List ParentChunk), ([] : List ChildChunk)))
      (fun _ p c => Except.ok (p, c)) (fun c => Except.ok c)
      (fun _ => Except.ok ()) (fun _ => Except.ok ()) (fun _ => Except.ok ())).1 rfl
    exact ⟨rfl, h.1, h.2.1⟩
  · have h := (ingestion_progress (Except.error "boom") (fun _ => Except.ok ())
      (Except.ok ([] : List ParsedBlock)) (fun b => Except.ok b)
      (fun _ => Except.ok (([] : List ParentChunk), ([] : List ChildChunk)))
      (fun _ p c => Except.ok (p, c)) (fun c => Except.ok c)
      (fun _ => Except.ok ()) (fun _ => Except.ok ()) (fun _ => Except.ok ())).2 "boom" rfl
    exact ⟨rfl, h⟩

end DocSense
